import Mathlib

/-
  Verification development for the AlLocatorMatrix service-location resolution
  engine (src/locator/al-locator.types.ts of the nepal-common package).

  The TypeScript class is shallowly embedded as follows:
  - JavaScript objects used as string-keyed dictionaries become association
    lists over String keys with JS assignment semantics (assignment to an
    existing key keeps its insertion position; for-in iteration follows
    insertion order, which holds for the non-integer-like keys this code uses).
  - Descriptor objects are shared by reference between the indices, so the
    descriptor store is modelled as a heap (a list of descriptors addressed by
    numeric ids) and every index maps keys to heap ids; in-place mutation of a
    descriptor becomes a heap update visible through every index.
  - JS truthiness on optional strings (undefined and the empty string are
    falsy) is modelled by the predicate truthyS; arrays are always truthy.
  - The compiled RegExp matchers are modelled by an executable matcher for the
    regex fragment that escapeLocationPattern can emit (literals, escaped
    literals, the inserted character class, the dot, the quantifiers
    asterisk/plus/question and the final end anchor), together with a parser
    from the emitted pattern string.
  - The ambient browser window is an optional capability record.
-/

set_option maxHeartbeats 1000000
set_option maxRecDepth 8192

namespace AlLocator

/-! ## JS object dictionaries as association lists -/

/-- Reading a property of a JS object used as a dictionary: the first (and,
for objects maintained purely by assignment, only) entry with the key. -/
def objGet {α : Type} (m : List (String × α)) (k : String) : Option α :=
  match m.find? (fun p => p.1 == k) with
  | some p => some p.2
  | none => none

/-- hasOwnProperty. -/
def objHas {α : Type} (m : List (String × α)) (k : String) : Bool :=
  m.any (fun p => p.1 == k)

/-- JS property assignment: replace the value in place when the key exists
(keys of a JS object are unique, so replacing the first occurrence is exact),
otherwise append the new entry; insertion order is preserved. -/
def objSet {α : Type} : List (String × α) → String → α → List (String × α)
  | [], k, v => [(k, v)]
  | p :: t, k, v => if p.1 = k then (k, v) :: t else p :: objSet t k v

/-- A sequence of assignments, first to last. -/
def writeList {α : Type} (m : List (String × α)) (ws : List (String × α)) : List (String × α) :=
  ws.foldl (fun acc p => objSet acc p.1 p.2) m

theorem objHas_nil {α : Type} (k : String) : objHas ([] : List (String × α)) k = false := rfl

theorem objGet_nil {α : Type} (k : String) : objGet ([] : List (String × α)) k = none := rfl

theorem objHas_cons {α : Type} (p : String × α) (m : List (String × α)) (k : String) :
    objHas (p :: m) k = (p.1 == k || objHas m k) := by
  simp [objHas, List.any_cons]

theorem objGet_cons {α : Type} (p : String × α) (m : List (String × α)) (k : String) :
    objGet (p :: m) k = if p.1 = k then some p.2 else objGet m k := by
  simp only [objGet, List.find?_cons]
  by_cases h : p.1 = k
  · simp [h]
  · simp [h, beq_eq_false_iff_ne.2 h]

theorem objGet_eq_none_of_objHas_eq_false {α : Type} {m : List (String × α)} {k : String}
    (h : objHas m k = false) : objGet m k = none := by
  induction m with
  | nil => rfl
  | cons p t ih =>
      rw [objHas_cons] at h
      rcases Bool.or_eq_false_iff.1 h with ⟨h1, h2⟩
      rw [objGet_cons, if_neg (by simpa using h1)]
      exact ih h2

theorem objGet_isSome_of_objHas {α : Type} {m : List (String × α)} {k : String}
    (h : objHas m k = true) : (objGet m k).isSome = true := by
  induction m with
  | nil => simp [objHas] at h
  | cons p t ih =>
      rw [objHas_cons] at h
      rw [objGet_cons]
      by_cases hk : p.1 = k
      · simp [hk]
      · simp only [if_neg hk]
        rcases Bool.or_eq_true_iff.1 h with h1 | h2
        · exact absurd (by simpa using h1) hk
        · exact ih h2

theorem objGet_objSet_self {α : Type} (m : List (String × α)) (k : String) (v : α) :
    objGet (objSet m k v) k = some v := by
  induction m with
  | nil => simp [objSet, objGet_cons]
  | cons p t ih =>
      rw [objSet]
      by_cases hk : p.1 = k
      · rw [if_pos hk, objGet_cons, if_pos rfl]
      · rw [if_neg hk, objGet_cons, if_neg hk]
        exact ih

theorem objGet_objSet_ne {α : Type} (m : List (String × α)) (k k' : String) (v : α)
    (hne : k' ≠ k) : objGet (objSet m k v) k' = objGet m k' := by
  induction m with
  | nil => simp [objSet, objGet_cons, objGet_nil, if_neg (Ne.symm hne)]
  | cons p t ih =>
      rw [objSet]
      by_cases hk : p.1 = k
      · rw [if_pos hk, objGet_cons, objGet_cons, if_neg (Ne.symm hne), if_neg (by rw [hk]; exact Ne.symm hne)]
      · rw [if_neg hk, objGet_cons, objGet_cons]
        by_cases hk' : p.1 = k'
        · rw [if_pos hk', if_pos hk']
        · rw [if_neg hk', if_neg hk']
          exact ih

theorem objHas_objSet {α : Type} (m : List (String × α)) (k k' : String) (v : α) :
    objHas (objSet m k v) k' = (k == k' || objHas m k') := by
  induction m with
  | nil => simp [objSet, objHas_cons, objHas_nil]
  | cons p t ih =>
      rw [objSet]
      by_cases hk : p.1 = k
      · rw [if_pos hk, objHas_cons, objHas_cons, hk]
        by_cases hkk : k = k' <;> simp [hkk]
      · rw [if_neg hk, objHas_cons, objHas_cons, ih]
        by_cases hkk : k = k' <;> by_cases hpk : p.1 = k' <;>
          simp [hkk, hpk, Bool.or_left_comm]

/-! ## JS truthiness -/

/-- Truthiness of a `string | undefined` value: undefined and the empty string
are falsy, every other string is truthy. -/
def truthyS (o : Option String) : Bool :=
  match o with
  | some s => s ≠ ""
  | none => false

theorem truthyS_none : truthyS none = false := rfl

theorem truthyS_some_iff (s : String) : truthyS (some s) = true ↔ s ≠ "" := by
  simp [truthyS]

/-- The value a `string | undefined` contributes to a JS template literal. -/
def tmplS (o : Option String) : String :=
  match o with
  | some s => s
  | none => "undefined"

/-! ## Data model (al-locator.types.ts) -/

/-- AlLocationContext: the context in which a location may exist. -/
structure AlLocationContext where
  environment : Option String := none
  residency : Option String := none
  insightLocationId : Option String := none
  accessible : Option (List String) := none
deriving DecidableEq, Repr

/-- AlLocationDescriptor: a single instance of a location type.  The fields
uiCaption/uiEntryPoint/data carry display metadata of type `any` and are not
read by any algorithm of the class, so they are not modelled.  The private
cache field `_fullURI` is modelled as `fullURI`. -/
structure AlLocationDescriptor where
  locTypeId : String
  parentId : Option String := none
  insightLocationId : Option String := none
  uri : String
  residency : Option String := none
  environment : Option String := none
  aliases : Option (List String) := none
  productType : Option String := none
  aspect : Option String := none
  fullURI : Option String := none
deriving DecidableEq, Repr

instance : Inhabited AlLocationDescriptor :=
  ⟨{ locTypeId := "", uri := "" }⟩

/-- One record of the AlInsightLocations dictionary. -/
structure AlInsightLocationInfo where
  residency : String
  residencyCaption : String
  alternatives : Option (List String) := none
  logicalRegion : String
deriving DecidableEq, Repr

/-- The static AlInsightLocations dictionary, in source order. -/
def AlInsightLocations : List (String × AlInsightLocationInfo) :=
  [ ("defender-us-denver",
      { residency := "US", residencyCaption := "UNITED STATES", logicalRegion := "us-west-1" }),
    ("defender-us-ashburn",
      { residency := "US", residencyCaption := "UNITED STATES", logicalRegion := "us-east-1" }),
    ("defender-uk-newport",
      { residency := "EMEA", residencyCaption := "UNITED KINGDOM", logicalRegion := "uk-west-1" }),
    ("insight-us-virginia",
      { residency := "US", residencyCaption := "UNITED STATES",
        alternatives := some ["defender-us-denver", "defender-us-ashburn"],
        logicalRegion := "us-east-1" }),
    ("insight-eu-ireland",
      { residency := "EMEA", residencyCaption := "UNITED KINGDOM",
        alternatives := some ["defender-uk-newport"],
        logicalRegion := "uk-west-1" }) ]

/-- The ambient window.location capability (origin and pathname), when the
runtime provides one. -/
structure WindowLocation where
  origin : String
  pathname : String
deriving DecidableEq, Repr

/-- The string `window.location.origin + (pathname.length > 1 ? pathname : "")`
used both by resolveURL and by setActingUri, or the fixed placeholder when the
runtime has no window. -/
def windowLocationString (w : Option WindowLocation) : String :=
  match w with
  | some loc => loc.origin ++ (if 1 < loc.pathname.length then loc.pathname else "")
  | none => "http://localhost:9999"

/-! ## getBaseUrl -/

/-- getBaseUrl: chop the fragment (everything from the first hash), then the
query string (everything from the first question mark), then one trailing
slash.  substring(0, indexOf(c)) is takeWhile (fun x => x is not c). -/
def getBaseUrl (uri : String) : String :=
  let l1 := uri.data.takeWhile (fun c => c ≠ '#')
  let l2 := l1.takeWhile (fun c => c ≠ '?')
  let l3 := if l2.getLast? = some '/' then l2.dropLast else l2
  String.mk l3

/-! ## escapeLocationPattern and the RegExp model -/

/-- The characters escaped by the regex `[-\/\\^$.()|[\]{}]` (global). -/
def regexEscapeChars : List Char :=
  ['-', '/', '\\', '^', '$', '.', '(', ')', '|', '[', ']', '{', '}']

/-- `uri.replace(/[-\/\\^$.()|[\]{}]/g, "\\$&")`: put a backslash before every
occurrence of a character of the class. -/
def escapeAll (l : List Char) : List Char :=
  l.foldr (fun c acc => if c ∈ regexEscapeChars then '\\' :: c :: acc else c :: acc) []

/-- The replacement text inserted for the asterisk wildcard. -/
def wildcardClassChars : List Char := "[a-zA-Z0-9_]+".data

/-- `pattern.replace(/\*/, "[a-zA-Z0-9_]+")`: only the first asterisk is
replaced, because the source regex carries no global flag. -/
def replaceFirstStar : List Char → List Char
  | [] => []
  | c :: rest => if c = '*' then wildcardClassChars ++ rest else c :: replaceFirstStar rest

/-- escapeLocationPattern: escape the regex metacharacters, prepend the start
anchor, replace the first asterisk by the word-character class, and append the
filler and terminus anchor. -/
def escapeLocationPattern (uri : String) : String :=
  let pattern := '^' :: escapeAll uri.data
  let pattern := replaceFirstStar pattern
  String.mk (pattern ++ ".*$".data)

/-- Atoms of the regex fragment that escapeLocationPattern can emit. -/
inductive RAtom where
  | lit (c : Char)
  | cls
  | dot
deriving DecidableEq, Repr

/-- Postfix quantifiers of that fragment. -/
inductive RQuant where
  | one
  | star
  | plus
  | opt
deriving DecidableEq, Repr

/-- Word characters matched by the inserted class [a-zA-Z0-9_]. -/
def isWordChar (c : Char) : Bool :=
  (('a' ≤ c ∧ c ≤ 'z') ∨ ('A' ≤ c ∧ c ≤ 'Z') ∨ ('0' ≤ c ∧ c ≤ '9') ∨ c = '_')

/-- JS line terminators, which the dot does not match. -/
def isLineTerminator (c : Char) : Bool :=
  (c = '\n' ∨ c = '\r' ∨ c = Char.ofNat 0x2028 ∨ c = Char.ofNat 0x2029)

def atomMatch : RAtom → Char → Bool
  | RAtom.lit c, x => x = c
  | RAtom.cls, x => isWordChar x
  | RAtom.dot, x => ¬ isLineTerminator x

/-- Backtracking matcher with explicit fuel (structural, so that the kernel
can evaluate it): does the quantified-atom sequence match the whole character
list?  Every recursive call strictly decreases ps.length + s.length, so any
fuel above that sum computes the true answer; reMatchSeq below supplies it. -/
def reMatchSeqF : Nat → List (RAtom × RQuant) → List Char → Bool
  | 0, _, _ => false
  | _ + 1, [], s => s.isEmpty
  | _ + 1, (_, RQuant.one) :: _, [] => false
  | fuel + 1, (a, RQuant.one) :: ps, c :: s => atomMatch a c && reMatchSeqF fuel ps s
  | fuel + 1, (_, RQuant.opt) :: ps, [] => reMatchSeqF fuel ps []
  | fuel + 1, (a, RQuant.opt) :: ps, c :: s =>
      reMatchSeqF fuel ps (c :: s) || (atomMatch a c && reMatchSeqF fuel ps s)
  | fuel + 1, (_, RQuant.star) :: ps, [] => reMatchSeqF fuel ps []
  | fuel + 1, (a, RQuant.star) :: ps, c :: s =>
      reMatchSeqF fuel ps (c :: s) ||
        (atomMatch a c && reMatchSeqF fuel ((a, RQuant.star) :: ps) s)
  | _ + 1, (_, RQuant.plus) :: _, [] => false
  | fuel + 1, (a, RQuant.plus) :: ps, c :: s =>
      atomMatch a c && reMatchSeqF fuel ((a, RQuant.star) :: ps) s

/-- The matcher with adequate fuel. -/
def reMatchSeq (ps : List (RAtom × RQuant)) (s : List Char) : Bool :=
  reMatchSeqF (ps.length + s.length + 1) ps s

/-- Fuelled parser for the pattern body after the start anchor, written as a
single structural recursion; the `pending` argument carries an atom awaiting
its optional postfix quantifier.  A bare quantifier with no atom before it
(which makes the RegExp constructor throw in JS) and a terminus anchor before
the end both fail the parse; a failed parse makes the modelled matcher
reject, standing in for the undefined behaviour of invalid patterns. -/
def parseRunF : Nat → Option RAtom → List Char → Option (List (RAtom × RQuant))
  | 0, _, _ => none
  | fuel + 1, some a, l =>
    match l with
    | [] => (parseRunF fuel none []).map (fun ps => (a, RQuant.one) :: ps)
    | c :: r =>
      if c = '*' then (parseRunF fuel none r).map (fun ps => (a, RQuant.star) :: ps)
      else if c = '+' then (parseRunF fuel none r).map (fun ps => (a, RQuant.plus) :: ps)
      else if c = '?' then (parseRunF fuel none r).map (fun ps => (a, RQuant.opt) :: ps)
      else (parseRunF fuel none (c :: r)).map (fun ps => (a, RQuant.one) :: ps)
  | _ + 1, none, [] => none
  | fuel + 1, none, c :: rest =>
    if c = '$' then (if rest.isEmpty then some [] else none)
    else if c = '*' ∨ c = '+' ∨ c = '?' then none
    else if c = '\\' then
      match rest with
      | [] => none
      | d :: r2 => parseRunF fuel (some (RAtom.lit d)) r2
    else if c = '[' then
      if rest.take 11 = "a-zA-Z0-9_]".data then parseRunF fuel (some RAtom.cls) (rest.drop 11)
      else none
    else if c = '.' then parseRunF fuel (some RAtom.dot) rest
    else parseRunF fuel (some (RAtom.lit c)) rest

/-- The parser with adequate fuel (every call strictly decreases the measure
2 * length + 1 for a pending atom, 2 * length + 2 otherwise). -/
def parseAtoms (l : List Char) : Option (List (RAtom × RQuant)) :=
  parseRunF (2 * l.length + 2) none l

theorem parseRunF_some_cons (fuel : Nat) (a : RAtom) (c : Char) (r : List Char) :
    parseRunF (fuel + 1) (some a) (c :: r) =
      if c = '*' then (parseRunF fuel none r).map (fun ps => (a, RQuant.star) :: ps)
      else if c = '+' then (parseRunF fuel none r).map (fun ps => (a, RQuant.plus) :: ps)
      else if c = '?' then (parseRunF fuel none r).map (fun ps => (a, RQuant.opt) :: ps)
      else (parseRunF fuel none (c :: r)).map (fun ps => (a, RQuant.one) :: ps) := rfl

theorem parseRunF_none_cons (fuel : Nat) (c : Char) (rest : List Char) :
    parseRunF (fuel + 1) none (c :: rest) =
      (if c = '$' then (if rest.isEmpty then some [] else none)
       else if c = '*' ∨ c = '+' ∨ c = '?' then none
       else if c = '\\' then
         (match rest with
          | [] => none
          | d :: r2 => parseRunF fuel (some (RAtom.lit d)) r2)
       else if c = '[' then
         (if rest.take 11 = "a-zA-Z0-9_]".data then parseRunF fuel (some RAtom.cls) (rest.drop 11)
          else none)
       else if c = '.' then parseRunF fuel (some RAtom.dot) rest
       else parseRunF fuel (some (RAtom.lit c)) rest) := rfl

/-- Parse a full emitted pattern: a start anchor followed by the body. -/
def parseRegex (p : String) : Option (List (RAtom × RQuant)) :=
  match p.data with
  | '^' :: rest => parseAtoms rest
  | _ => none

/-- `new RegExp(pattern).test(target)` for emitted patterns. -/
def regexTest (pattern : String) (target : String) : Bool :=
  match parseRegex pattern with
  | some ps => reMatchSeq ps target.data
  | none => false

/-! ## The AlLocatorMatrix state

Descriptors live on a heap (list indexed by numeric ids); uriMap stores its
RegExp keyed by the pattern string, and since the compiled matcher is a pure
function of the pattern, the map only needs to keep pattern and heap id. -/

structure AlLocatorMatrix where
  actingUri : Option String := none
  /-- heap id of the acting node. -/
  actor : Option Nat := none
  /-- pattern to heap id; the matcher of an entry is regexTest of its key. -/
  uriMap : List (String × Nat) := []
  /-- the per-locTypeId lookup memo (field `nodes` of the source). -/
  nodes : List (String × Nat) := []
  /-- the hash index (field `_nodeMap` of the source). -/
  nodeMap : List (String × Nat) := []
  context : AlLocationContext :=
    { environment := some "production", residency := some "US" }
  /-- descriptor store: JS object references become indices into this list. -/
  heap : List AlLocationDescriptor := []
  /-- the ambient window capability of the runtime, absent outside browsers. -/
  window : Option WindowLocation := none
deriving DecidableEq, Repr

/-- Dereference a heap id. -/
def heapGet (st : AlLocatorMatrix) (i : Nat) : AlLocationDescriptor :=
  st.heap.getD i default

/-- Mutate the descriptor behind a heap id (visible through every index). -/
def heapSet (st : AlLocatorMatrix) (i : Nat) (d : AlLocationDescriptor) : AlLocatorMatrix :=
  { st with heap := st.heap.set i d }

/-! ### Effective context resolution (getNode lines 378-381) -/

def effEnvironment (st : AlLocatorMatrix) (ctx : Option AlLocationContext) : Option String :=
  match ctx with
  | some c => if truthyS c.environment then c.environment else st.context.environment
  | none => st.context.environment

def effResidency (st : AlLocatorMatrix) (ctx : Option AlLocationContext) : Option String :=
  match ctx with
  | some c => if truthyS c.residency then c.residency else st.context.residency
  | none => st.context.residency

def effInsightLocationId (st : AlLocatorMatrix) (ctx : Option AlLocationContext) : Option String :=
  match ctx with
  | some c => if truthyS c.insightLocationId then c.insightLocationId else st.context.insightLocationId
  | none => st.context.insightLocationId

/-- `context && context.accessible ? context.accessible : this.context.accessible`;
an array is truthy whenever it is defined, even when empty. -/
def effAccessible (st : AlLocatorMatrix) (ctx : Option AlLocationContext) : Option (List String) :=
  match ctx with
  | some c =>
    match c.accessible with
    | some l => some l
    | none => st.context.accessible
  | none => st.context.accessible

/-- The four-part hash key `t-e-r-i`. -/
def nodeKey4 (t e r i : String) : String :=
  t ++ "-" ++ e ++ "-" ++ r ++ "-" ++ i

/-- The three-part hash key `t-e-r` (also used with literal `*` parts). -/
def nodeKey3 (t e r : String) : String :=
  t ++ "-" ++ e ++ "-" ++ r

/-! ### getNode -/

/-- getNode: memoised fallback-priority lookup.  Mirrors the source exactly;
note that the loop over `accessible` has no break, so a later accessible id
whose key is present overwrites an earlier hit. -/
def getNode (st : AlLocatorMatrix) (locTypeId : String) (ctx : Option AlLocationContext) :
    Option Nat × AlLocatorMatrix :=
  if objHas st.nodes locTypeId ∧ ctx = none then
    (objGet st.nodes locTypeId, st)
  else
    let environment := effEnvironment st ctx
    let residency := effResidency st ctx
    let insightLocationId := effInsightLocationId st ctx
    let accessible := effAccessible st ctx
    let node : Option Nat :=
      if truthyS insightLocationId then
        objGet st.nodeMap
          (nodeKey4 locTypeId (tmplS environment) (tmplS residency) (tmplS insightLocationId))
      else none
    let node : Option Nat :=
      if node = none ∧ accessible.getD [] ≠ [] then
        (accessible.getD []).foldl
          (fun acc aid =>
            if some aid ≠ insightLocationId ∧
                objHas st.nodeMap (nodeKey4 locTypeId (tmplS environment) (tmplS residency) aid) then
              objGet st.nodeMap (nodeKey4 locTypeId (tmplS environment) (tmplS residency) aid)
            else acc)
          none
      else node
    let node : Option Nat :=
      if node = none ∧ truthyS environment ∧ truthyS residency ∧
          objHas st.nodeMap (nodeKey3 locTypeId (tmplS environment) (tmplS residency)) then
        objGet st.nodeMap (nodeKey3 locTypeId (tmplS environment) (tmplS residency))
      else node
    let node : Option Nat :=
      if node = none ∧ truthyS environment ∧
          objHas st.nodeMap (nodeKey3 locTypeId (tmplS environment) "*") then
        objGet st.nodeMap (nodeKey3 locTypeId (tmplS environment) "*")
      else node
    let node : Option Nat :=
      if node = none ∧ objHas st.nodeMap (nodeKey3 locTypeId "*" "*") then
        objGet st.nodeMap (nodeKey3 locTypeId "*" "*")
      else node
    let st :=
      match node, ctx with
      | some i, none => { st with nodes := objSet st.nodes locTypeId i }
      | _, _ => st
    (node, st)

/-! ### getNodeByURI -/

/-- The body of the for-in loop of getNodeByURI over the remaining uriMap
entries: return the first entry whose matcher accepts the target, correcting
the stored uri and fullURI of the matched node when the canonical base of the
target differs from the stored uri. -/
def getNodeByURIGo (st : AlLocatorMatrix) (target : String) :
    List (String × Nat) → Option Nat × AlLocatorMatrix
  | [] => (none, st)
  | (pattern, i) :: rest =>
    if regexTest pattern target then
      let baseUrl := getBaseUrl target
      let node := heapGet st i
      if baseUrl ≠ node.uri then
        (some i, heapSet st i { node with uri := baseUrl, fullURI := some baseUrl })
      else
        (some i, st)
    else getNodeByURIGo st target rest

/-- getNodeByURI (the public findByUri). -/
def getNodeByURI (st : AlLocatorMatrix) (target : String) : Option Nat × AlLocatorMatrix :=
  getNodeByURIGo st target st.uriMap

/-- getActingNode. -/
def getActingNode (st : AlLocatorMatrix) : Option Nat :=
  st.actor

/-! ### resolveNodeURI -/

/-- resolveNodeURI: recursive composition of a node URL.  The source recurses
through parent links with no cycle defense; the fuel argument makes the
embedding total, and callers pass enough fuel for every cycle-free chain.
With fuel exhausted the function answers the empty string, a value no claim
relies on. -/
def resolveNodeURI : Nat → AlLocatorMatrix → Option AlLocationContext → Nat →
    String × AlLocatorMatrix
  | 0, st, _, _ => ("", st)
  | Nat.succ fuel, st, ctx, i =>
    let node := heapGet st i
    if truthyS node.fullURI then
      (node.fullURI.getD "", st)
    else
      let (uri, st1) :=
        if truthyS node.parentId then
          let (parentNode, st') := getNode st (tmplS node.parentId) ctx
          match parentNode with
          | some j => resolveNodeURI fuel st' ctx j
          | none => ("", st')
        else ("", st)
      let uri :=
        if node.uri ≠ "" then
          let u := uri ++ node.uri
          if ¬ truthyS node.parentId then
            if u.data.take 4 ≠ "http".data then "https://" ++ u else u
          else u
        else uri
      (uri, heapSet st1 i { node with fullURI := some uri })

/-- The fuel resolveURL hands to resolveNodeURI: enough for any cycle-free
parent chain, which visits pairwise distinct heap nodes. -/
def defaultFuel (st : AlLocatorMatrix) : Nat :=
  st.heap.length + 1

/-! ### resolveURL -/

/-- The optional path suffix: appended only when truthy. -/
def pathSuffix (path : Option String) : String :=
  match path with
  | some p => if p ≠ "" then p else ""
  | none => ""

/-- resolveURL: the composed URL of the resolved node, or the ambient window
location string (or the fixed placeholder) when the type does not resolve,
plus the optional path suffix.  Note the source calls resolveNodeURI without
forwarding the explicit context. -/
def resolveURL (st : AlLocatorMatrix) (locTypeId : String) (path : Option String)
    (ctx : Option AlLocationContext) : String × AlLocatorMatrix :=
  let (loc, st1) := getNode st locTypeId ctx
  let (url, st2) :=
    match loc with
    | some i => resolveNodeURI (defaultFuel st1) st1 none i
    | none => (windowLocationString st1.window, st1)
  (url ++ pathSuffix path, st2)

/-! ### saveNode, addUriMapping, setLocations -/

/-- addUriMapping: compile the uri (when a non-empty string) and every alias
of the node at heap id `i` into the uriMap. -/
def addUriMapping (st : AlLocatorMatrix) (i : Nat) : AlLocatorMatrix :=
  let node := heapGet st i
  let st :=
    if node.uri ≠ "" then
      { st with uriMap := objSet st.uriMap (escapeLocationPattern node.uri) i }
    else st
  match node.aliases with
  | some al =>
      al.foldl (fun st aliasPattern =>
        { st with uriMap := objSet st.uriMap (escapeLocationPattern aliasPattern) i }) st
  | none => st

/-- saveNode: allocate the descriptor on the heap and write its hash keys,
then its URI patterns. -/
def saveNode (st : AlLocatorMatrix) (node : AlLocationDescriptor) : AlLocatorMatrix :=
  let i := st.heap.length
  let k4 := nodeKey4 node.locTypeId (tmplS node.environment) (tmplS node.residency)
    (tmplS node.insightLocationId)
  let k3 := nodeKey3 node.locTypeId (tmplS node.environment) (tmplS node.residency)
  let kE := nodeKey3 node.locTypeId (tmplS node.environment) "*"
  let kA := nodeKey3 node.locTypeId "*" "*"
  let st := { st with heap := st.heap ++ [node] }
  let st :=
    if truthyS node.environment ∧ truthyS node.residency then
      let st :=
        if truthyS node.insightLocationId then
          { st with nodeMap := objSet st.nodeMap k4 i }
        else st
      { st with nodeMap := objSet st.nodeMap k3 i }
    else st
  let st :=
    if truthyS node.environment then
      { st with nodeMap := objSet st.nodeMap kE i }
    else st
  let st := { st with nodeMap := objSet st.nodeMap kA i }
  addUriMapping st i

/-- setLocations: register every descriptor of the catalog, in order.  The
source clears nothing before the loop. -/
def setLocations (st : AlLocatorMatrix) (nodes : List AlLocationDescriptor) : AlLocatorMatrix :=
  nodes.foldl saveNode st

/-! ### search and findOne -/

/-- search: iterate the raw hash-index entries in insertion order and keep the
descriptors satisfying the filter (one result per matching key). -/
def search (st : AlLocatorMatrix) (filter : AlLocationDescriptor → Bool) :
    List AlLocationDescriptor :=
  (st.nodeMap.map (fun p => heapGet st p.2)).filter filter

/-- findOne: head of the search results, or none. -/
def findOne (st : AlLocatorMatrix) (filter : AlLocationDescriptor → Bool) :
    Option AlLocationDescriptor :=
  (search st filter).head?

/-! ### normalizeContext and setContext -/

/-- normalizeContext: map an insight location id to the correct defender data
center and align the residency.  Runs only when both insightLocationId and
accessible are set (an array is truthy whenever defined). -/
def normalizeContext (c : AlLocationContext) : AlLocationContext :=
  if ¬ truthyS c.insightLocationId then c
  else
    match c.accessible with
    | none => c
    | some acc =>
      match objGet AlInsightLocations (tmplS c.insightLocationId) with
      | none => c
      | some insightLocation =>
        let c :=
          match insightLocation.alternatives with
          | some alternatives =>
              let selected :=
                match alternatives.find? (fun cand => acc.contains cand) with
                | some s => some s
                | none => alternatives.head?
              { c with insightLocationId := selected }
          | none => c
        if insightLocation.residency ≠ "" ∧ c.residency ≠ some insightLocation.residency then
          { c with residency := some insightLocation.residency }
        else c

/-- setContext: flush the lookup memo, merge truthy fields of the argument
into the live context (insightLocationId and accessible first), pull the
residency of a catalog node carrying the bound insight location id, merge
environment and residency, then normalize. -/
def setContext (st : AlLocatorMatrix) (context : Option AlLocationContext) : AlLocatorMatrix :=
  let st := { st with nodes := [] }
  let c := st.context
  let c := { c with
    insightLocationId :=
      match context with
      | some a => if truthyS a.insightLocationId then a.insightLocationId else c.insightLocationId
      | none => c.insightLocationId }
  let c := { c with
    accessible :=
      match context with
      | some a =>
        match a.accessible with
        | some l => if l ≠ [] then some l else c.accessible
        | none => c.accessible
      | none => c.accessible }
  let c :=
    if truthyS c.insightLocationId then
      match findOne st (fun n => n.insightLocationId == c.insightLocationId) with
      | some locationNode =>
          if truthyS locationNode.residency then
            { c with residency := locationNode.residency }
          else c
      | none => c
    else c
  let c := { c with
    environment :=
      match context with
      | some a => if truthyS a.environment then a.environment else c.environment
      | none => c.environment }
  let c := { c with
    residency :=
      match context with
      | some a => if truthyS a.residency then a.residency else c.residency
      | none => c.residency }
  { st with context := normalizeContext c }

/-- getContext. -/
def getContext (st : AlLocatorMatrix) : AlLocationContext :=
  st.context

/-! ### setActingUri -/

/-- The runtime value passed to setActingUri: its TS type is string|boolean,
and the implementation additionally tests for null. -/
inductive ActingUriArg where
  | jsNull
  | bool (b : Bool)
  | str (s : String)
deriving DecidableEq, Repr

/-- setActingUri: only null clears the acting state; a boolean (either one!)
is replaced by the ambient window location string, and a truthy URI is stored
and fed to getNodeByURI, whose hit seeds the context with the environment and
residency of the acting node. -/
def setActingUri (st : AlLocatorMatrix) (actingUri : ActingUriArg) : AlLocatorMatrix :=
  match actingUri with
  | ActingUriArg.jsNull => { st with actingUri := none, actor := none }
  | arg =>
    let uri : String :=
      match arg with
      | ActingUriArg.bool _ => windowLocationString st.window
      | ActingUriArg.str s => s
      | ActingUriArg.jsNull => ""
    if uri ≠ "" then
      let st := { st with actingUri := some uri }
      let (actorOpt, st) := getNodeByURI st uri
      let st := { st with actor := actorOpt }
      match actorOpt with
      | some i =>
          let a := heapGet st i
          setContext st (some
            { environment := if truthyS a.environment then a.environment else st.context.environment,
              residency := if truthyS a.residency then a.residency else st.context.residency })
      | none => st
    else st

/-! ## General lemmas about the embedding -/

theorem objSet_of_not_has {α : Type} {m : List (String × α)} {k : String} (v : α)
    (h : objHas m k = false) : objSet m k v = m ++ [(k, v)] := by
  induction m with
  | nil => rfl
  | cons p t ih =>
      rw [objHas_cons, Bool.or_eq_false_iff] at h
      rw [objSet, if_neg (by simpa using h.1), ih h.2, List.cons_append]

/-- getNode only ever touches the lookup memo. -/
theorem getNode_state (st : AlLocatorMatrix) (t : String) (c : Option AlLocationContext) :
    ∃ ns, (getNode st t c).2 = { st with nodes := ns } := by
  unfold getNode
  split
  · exact ⟨st.nodes, rfl⟩
  · dsimp only
    split
    · exact ⟨_, rfl⟩
    · exact ⟨st.nodes, rfl⟩

theorem getNode_window (st : AlLocatorMatrix) (t : String) (c : Option AlLocationContext) :
    ((getNode st t c).2).window = st.window := by
  obtain ⟨ns, h⟩ := getNode_state st t c
  rw [h]

theorem getNode_heap (st : AlLocatorMatrix) (t : String) (c : Option AlLocationContext) :
    ((getNode st t c).2).heap = st.heap := by
  obtain ⟨ns, h⟩ := getNode_state st t c
  rw [h]

theorem getNode_nodeMap (st : AlLocatorMatrix) (t : String) (c : Option AlLocationContext) :
    ((getNode st t c).2).nodeMap = st.nodeMap := by
  obtain ⟨ns, h⟩ := getNode_state st t c
  rw [h]

theorem getNode_context (st : AlLocatorMatrix) (t : String) (c : Option AlLocationContext) :
    ((getNode st t c).2).context = st.context := by
  obtain ⟨ns, h⟩ := getNode_state st t c
  rw [h]

theorem writeList_nil {α : Type} (m : List (String × α)) : writeList m [] = m := rfl

theorem writeList_cons {α : Type} (m : List (String × α)) (w : String × α) (ws : List (String × α)) :
    writeList m (w :: ws) = writeList (objSet m w.1 w.2) ws := rfl

theorem writeList_append {α : Type} (m : List (String × α)) (a b : List (String × α)) :
    writeList m (a ++ b) = writeList (writeList m a) b := by
  simp [writeList, List.foldl_append]

theorem objHas_append {α : Type} (m m' : List (String × α)) (k : String) :
    objHas (m ++ m') k = (objHas m k || objHas m' k) := by
  simp [objHas, List.any_append]

theorem objGet_append {α : Type} (m m' : List (String × α)) (k : String) :
    objGet (m ++ m') k = match objGet m k with | some v => some v | none => objGet m' k := by
  induction m with
  | nil => simp [objGet_nil]
  | cons p t ih =>
      rw [List.cons_append, objGet_cons, objGet_cons]
      by_cases h : p.1 = k
      · simp [h]
      · simp only [if_neg h]
        exact ih

/-- Writing a block of entries whose keys are fresh and pairwise distinct is
plain concatenation. -/
theorem writeList_all_fresh {α : Type} (ws : List (String × α)) :
    ∀ m : List (String × α), (∀ w ∈ ws, objHas m w.1 = false) →
      (ws.map Prod.fst).Nodup → writeList m ws = m ++ ws := by
  induction ws with
  | nil => intro m _ _; simp [writeList_nil]
  | cons w t ih =>
      intro m hfresh hnd
      rw [writeList_cons, objSet_of_not_has _ (hfresh w (List.mem_cons_self w t))]
      rw [List.map_cons, List.nodup_cons] at hnd
      rw [ih (m ++ [w]) ?_ hnd.2, List.append_assoc]
      · rfl
      · intro x hx
        rw [objHas_append, Bool.or_eq_false_iff]
        refine ⟨hfresh x (List.mem_cons_of_mem w hx), ?_⟩
        have hne : w.1 ≠ x.1 := by
          intro he
          exact hnd.1 (he ▸ List.mem_map_of_mem Prod.fst hx)
        simp [objHas, hne]

/-- The hash keys saveNode writes for a node, in write order. -/
def nodeKeys (node : AlLocationDescriptor) : List String :=
  (if truthyS node.environment ∧ truthyS node.residency then
    (if truthyS node.insightLocationId then
      [nodeKey4 node.locTypeId (tmplS node.environment) (tmplS node.residency)
        (tmplS node.insightLocationId)]
     else []) ++
    [nodeKey3 node.locTypeId (tmplS node.environment) (tmplS node.residency)]
   else []) ++
  (if truthyS node.environment then [nodeKey3 node.locTypeId (tmplS node.environment) "*"] else []) ++
  [nodeKey3 node.locTypeId "*" "*"]

/-- The URI patterns addUriMapping writes for a node, in write order. -/
def uriPatterns (node : AlLocationDescriptor) : List String :=
  (if node.uri ≠ "" then [escapeLocationPattern node.uri] else []) ++
  (node.aliases.getD []).map escapeLocationPattern

theorem foldlAlias_spec (al : List String) (i : Nat) :
    ∀ st : AlLocatorMatrix,
      al.foldl (fun st ap => { st with uriMap := objSet st.uriMap (escapeLocationPattern ap) i }) st
        = { st with uriMap := writeList st.uriMap (al.map (fun ap => (escapeLocationPattern ap, i))) } := by
  induction al with
  | nil => intro st; rfl
  | cons a t ih => intro st; rw [List.foldl_cons, ih]; rfl

theorem getD_append_length {α : Type} [Inhabited α] (l : List α) (a : α) :
    (l ++ [a]).getD l.length (default : α) = a := by
  rw [List.getD_append_right _ _ _ _ (le_refl _), Nat.sub_self]
  rfl

theorem addUriMapping_spec (st : AlLocatorMatrix) (i : Nat) :
    addUriMapping st i =
      { st with uriMap :=
          writeList st.uriMap ((uriPatterns (heapGet st i)).map (fun p => (p, i))) } := by
  obtain ⟨au, ac, um, ns, nm, cx, hp, wd⟩ := st
  simp only [addUriMapping, uriPatterns, heapGet]
  by_cases hu : (hp.getD i default).uri ≠ ""
  · simp only [if_pos hu]
    cases ha : (hp.getD i default).aliases with
    | none => simp [ha, writeList_cons, writeList_nil, Function.comp_def]
    | some al => simp [ha, foldlAlias_spec, writeList_cons, writeList_nil, Function.comp_def]
  · simp only [if_neg hu]
    cases ha : (hp.getD i default).aliases with
    | none => simp [ha, writeList_nil, Function.comp_def]
    | some al => simp [ha, foldlAlias_spec, writeList_nil, Function.comp_def]

theorem saveNode_spec (st : AlLocatorMatrix) (node : AlLocationDescriptor) :
    saveNode st node =
      { st with
          heap := st.heap ++ [node],
          nodeMap := writeList st.nodeMap ((nodeKeys node).map (fun k => (k, st.heap.length))),
          uriMap := writeList st.uriMap ((uriPatterns node).map (fun p => (p, st.heap.length))) } := by
  obtain ⟨au, ac, um, ns, nm, cx, hp, wd⟩ := st
  simp only [saveNode, nodeKeys, addUriMapping_spec, heapGet, getD_append_length]
  by_cases her : truthyS node.environment = true ∧ truthyS node.residency = true
  · by_cases hi : truthyS node.insightLocationId = true
    · simp [her, her.1, hi, writeList_cons, writeList_nil, Function.comp_def]
    · simp [her, her.1, hi, writeList_cons, writeList_nil, Function.comp_def]
  · by_cases he : truthyS node.environment = true
    · have hr : ¬ truthyS node.residency = true := fun hr => her ⟨he, hr⟩
      simp [her, he, hr, writeList_cons, writeList_nil, Function.comp_def]
    · simp [her, he, writeList_cons, writeList_nil, Function.comp_def]

/-- The nodeMap writes of a whole catalog, with heap ids starting at n. -/
def catalogNodeWrites : List AlLocationDescriptor → Nat → List (String × Nat)
  | [], _ => []
  | d :: ds, n => (nodeKeys d).map (fun k => (k, n)) ++ catalogNodeWrites ds (n + 1)

/-- The uriMap writes of a whole catalog, with heap ids starting at n. -/
def catalogUriWrites : List AlLocationDescriptor → Nat → List (String × Nat)
  | [], _ => []
  | d :: ds, n => (uriPatterns d).map (fun p => (p, n)) ++ catalogUriWrites ds (n + 1)

theorem setLocations_spec (C : List AlLocationDescriptor) :
    ∀ st : AlLocatorMatrix,
      setLocations st C =
        { st with
            heap := st.heap ++ C,
            nodeMap := writeList st.nodeMap (catalogNodeWrites C st.heap.length),
            uriMap := writeList st.uriMap (catalogUriWrites C st.heap.length) } := by
  induction C with
  | nil =>
      intro st
      simp [setLocations, catalogNodeWrites, catalogUriWrites, writeList_nil]
  | cons d ds ih =>
      intro st
      have h1 : setLocations st (d :: ds) = setLocations (saveNode st d) ds := by
        rw [setLocations, List.foldl_cons]; rfl
      rw [h1, ih (saveNode st d), saveNode_spec]
      simp [catalogNodeWrites, catalogUriWrites, writeList_append, List.append_assoc,
        List.length_append]

/-! ## Claim C2: resolveURL is total and falls back to the ambient origin -/

/-- The empty engine: no catalog loaded, default context, no window. -/
def emptyMatrix : AlLocatorMatrix := {}

/-- The single catalog node of the C2 scenario. -/
def c2Node : AlLocationDescriptor :=
  { locTypeId := "global:api", environment := some "production", residency := some "US",
    uri := "https://api.global.alertlogic.com" }

/-- The C2 scenario engine: one node, default context, no window capability. -/
def c2State : AlLocatorMatrix := setLocations emptyMatrix [c2Node]

/-- C2 (confirmed): resolveURL always returns a string and never raises: it is
a total function of the embedding.  When the type does not resolve, the result
is the ambient window location string, or the fixed placeholder
http://localhost:9999 when the runtime has no window capability, plus the
optional path suffix, so a miss is never an error.  In the concrete scenario
with the single global:api production/US node and the default context,
resolveURL returns exactly the node URI, the node URI plus the path suffix,
and, for an unknown type, the placeholder (no window) or the window origin. -/
theorem C2_resolveURL_total_fallback :
    (∀ (st : AlLocatorMatrix) (t : String) (p : Option String) (c : Option AlLocationContext),
      (getNode st t c).1 = none →
        (resolveURL st t p c).1 = windowLocationString st.window ++ pathSuffix p) ∧
    (resolveURL c2State "global:api" none none).1 = "https://api.global.alertlogic.com" ∧
    (resolveURL c2State "global:api" (some "/v2/users") none).1 =
      "https://api.global.alertlogic.com/v2/users" ∧
    (resolveURL c2State "unknown:type" none none).1 = "http://localhost:9999" ∧
    (resolveURL c2State "unknown:type" (some "/x") none).1 = "http://localhost:9999/x" ∧
    (resolveURL
        { c2State with window := some { origin := "https://host.example.com", pathname := "/" } }
        "unknown:type" none none).1 = "https://host.example.com" := by
  refine ⟨?_, rfl, rfl, rfl, rfl, rfl⟩
  intro st t p c h
  have hw := getNode_window st t c
  unfold resolveURL
  rcases hg : getNode st t c with ⟨o, st1⟩
  have ho : o = none := by rw [hg] at h; exact h
  have hw1 : st1.window = st.window := by rw [hg] at hw; exact hw
  subst ho
  simp only [hg, hw1]

/-- Witness for the hypothesis-bearing conjunct of C2: at the concrete
scenario state the unknown type misses the index and resolveURL answers the
placeholder plus suffix. -/
theorem C2_resolveURL_total_fallback_witness :
    (getNode c2State "unknown:type" none).1 = none ∧
    (resolveURL c2State "unknown:type" (some "/v2/users") none).1 =
      windowLocationString c2State.window ++ pathSuffix (some "/v2/users") :=
  ⟨by decide, C2_resolveURL_total_fallback.1 c2State "unknown:type" (some "/v2/users") none
    (by decide)⟩

/-! ## Claim C10: search iterates raw hash-index entries -/

/-- C10 (confirmed): search iterates the raw hash-index entries rather than
distinct descriptors, so a descriptor registered with environment, residency
and insightLocationId all set, whose four keys are pairwise distinct, is
returned once per matching key: a predicate matched only by that descriptor
makes search return it four times (keys type-env-res-dc, type-env-res,
type-env-asterisk, type-asterisk-asterisk), not once; findOne returns the
first such entry, and none when no entry matches. -/
theorem C10_search_iterates_raw_entries :
    (∀ (D : AlLocationDescriptor) (filter : AlLocationDescriptor → Bool),
      truthyS D.environment = true →
      truthyS D.residency = true →
      truthyS D.insightLocationId = true →
      filter D = true →
      [nodeKey4 D.locTypeId (tmplS D.environment) (tmplS D.residency) (tmplS D.insightLocationId),
       nodeKey3 D.locTypeId (tmplS D.environment) (tmplS D.residency),
       nodeKey3 D.locTypeId (tmplS D.environment) "*",
       nodeKey3 D.locTypeId "*" "*"].Nodup →
      search (saveNode emptyMatrix D) filter = [D, D, D, D] ∧
      findOne (saveNode emptyMatrix D) filter = some D) ∧
    (∀ (st : AlLocatorMatrix) (filter : AlLocationDescriptor → Bool),
      (∀ p ∈ st.nodeMap, filter (heapGet st p.2) = false) →
      findOne st filter = none) := by
  constructor
  · intro D filter he hr hi hf hkeys
    have hnk : nodeKeys D =
        [nodeKey4 D.locTypeId (tmplS D.environment) (tmplS D.residency) (tmplS D.insightLocationId),
         nodeKey3 D.locTypeId (tmplS D.environment) (tmplS D.residency),
         nodeKey3 D.locTypeId (tmplS D.environment) "*",
         nodeKey3 D.locTypeId "*" "*"] := by
      simp [nodeKeys, he, hr, hi]
    have hsn := saveNode_spec emptyMatrix D
    have hnm : (saveNode emptyMatrix D).nodeMap = (nodeKeys D).map (fun k => (k, 0)) := by
      rw [hsn]
      show writeList [] ((nodeKeys D).map (fun k => (k, 0))) = _
      rw [writeList_all_fresh]
      · simp
      · intro w _; rfl
      · rw [hnk]; simpa using hkeys
    have hheap : (saveNode emptyMatrix D).heap = [D] := by rw [hsn]; rfl
    have hsearch : search (saveNode emptyMatrix D) filter = [D, D, D, D] := by
      rw [search, hnm, hnk]
      simp [heapGet, hheap, hf]
    exact ⟨hsearch, by rw [findOne, hsearch]; rfl⟩
  · intro st filter hall
    have hsearch : search st filter = [] := by
      rw [search, List.filter_eq_nil_iff]
      intro a ha
      obtain ⟨p, hp, rfl⟩ := List.mem_map.1 ha
      simp [hall p hp]
    rw [findOne, hsearch]
    rfl

/-- The concrete descriptor of the C10 witness. -/
def c10Node : AlLocationDescriptor :=
  { locTypeId := "q:z", environment := some "production", residency := some "US",
    insightLocationId := some "defender-us-denver", uri := "https://q.example.com" }

/-- Witness for C10: a concrete descriptor with all three coordinates set is
returned four times by search after being saved into the empty engine, and
findOne on the empty engine is none. -/
theorem C10_search_iterates_raw_entries_witness :
    (truthyS c10Node.environment = true ∧
      search (saveNode emptyMatrix c10Node) (fun n => n.locTypeId == "q:z") =
        [c10Node, c10Node, c10Node, c10Node]) ∧
    findOne emptyMatrix (fun n => n.locTypeId == "q:z") = none :=
  ⟨⟨by decide,
    (C10_search_iterates_raw_entries.1 c10Node (fun n => n.locTypeId == "q:z")
      (by decide) (by decide) (by decide) (by decide) (by decide)).1⟩,
   C10_search_iterates_raw_entries.2 emptyMatrix (fun n => n.locTypeId == "q:z")
     (by intro p hp; simp [emptyMatrix] at hp)⟩

/-! ## Claim C5: data-center normalization -/

theorem objGet_mem {α : Type} {m : List (String × α)} {k : String} {v : α}
    (h : objGet m k = some v) : (k, v) ∈ m := by
  induction m with
  | nil => simp [objGet_nil] at h
  | cons p t ih =>
      rw [objGet_cons] at h
      by_cases hk : p.1 = k
      · rw [if_pos hk] at h
        have : p = (k, v) := by
          obtain ⟨p1, p2⟩ := p
          simp only at hk
          simp only [Option.some.injEq] at h
          simp [hk, h]
        exact this ▸ List.mem_cons_self p t
      · rw [if_neg hk] at h
        exact List.mem_cons_of_mem p (ih h)

/-- Every alternative declared by an AlInsightLocations entry has its own
entry in the table, with the same residency, and residencies are non-empty:
a finite check over the static table. -/
theorem alInsight_alternatives_residency :
    ∀ p ∈ AlInsightLocations, ∀ alts, p.2.alternatives = some alts →
      p.2.residency ≠ "" ∧ alts ≠ [] ∧
      ∀ a ∈ alts, (objGet AlInsightLocations a).map (fun q => q.residency) =
        some p.2.residency := by
  decide

/-- The id selected by the alternative scan: the first declared alternative
present in accessible, else the first declared alternative. -/
def selectAlternative (alts : List String) (acc : List String) : String :=
  (alts.find? (fun a => acc.contains a)).getD (alts.headD "")

/-- The context argument of the C5 scenario. -/
def c5Arg : AlLocationContext :=
  { insightLocationId := some "insight-us-virginia",
    accessible := some ["defender-us-ashburn"] }

/-- C5 (confirmed): when setContext leaves both insightLocationId and
accessible set and the static-table entry of the id declares alternatives,
normalization rewrites the id to the first declared alternative occurring in
accessible (or the first declared alternative when none is accessible), and
the context residency is overridden with the rewritten data-center residency
whenever that differs (the rewritten entry of the static table always agrees
with the original entry on residency).  setContext with insight-us-virginia
and accessible defender-us-ashburn yields defender-us-ashburn with residency
US from any prior engine state, and normalization with the id or the
accessible list absent changes nothing. -/
theorem C5_normalizeContext :
    (∀ (c : AlLocationContext) (L : String) (acc : List String)
        (info selInfo : AlInsightLocationInfo) (alts : List String),
      c.insightLocationId = some L → L ≠ "" → c.accessible = some acc →
      objGet AlInsightLocations L = some info →
      info.alternatives = some alts → alts ≠ [] →
      objGet AlInsightLocations (selectAlternative alts acc) = some selInfo →
      normalizeContext c =
        { c with
            insightLocationId := some (selectAlternative alts acc),
            residency :=
              if c.residency = some selInfo.residency then c.residency
              else some selInfo.residency }) ∧
    (∀ c : AlLocationContext, truthyS c.insightLocationId = false ∨ c.accessible = none →
      normalizeContext c = c) ∧
    (∀ st : AlLocatorMatrix,
      (setContext st (some c5Arg)).context.insightLocationId = some "defender-us-ashburn" ∧
      (setContext st (some c5Arg)).context.residency = some "US") := by
  refine ⟨?_, ?_, ?_⟩
  · intro c L acc info selInfo alts hc hL hacc hinfo halts hne hsel
    obtain ⟨hres_ne, _, hall⟩ := alInsight_alternatives_residency (L, info) (objGet_mem hinfo) alts halts
    have hselmem : selectAlternative alts acc ∈ alts := by
      unfold selectAlternative
      cases hf : alts.find? (fun a => acc.contains a) with
      | some s => simpa using List.mem_of_find?_eq_some hf
      | none =>
          cases alts with
          | nil => exact absurd rfl hne
          | cons h t => simp [List.headD]
    have hselres : selInfo.residency = info.residency := by
      have hx := hall _ hselmem
      rw [hsel] at hx
      simpa using hx
    have htr : truthyS c.insightLocationId = true := by
      rw [hc]; simpa [truthyS] using hL
    rw [normalizeContext, if_neg (by simp [htr]), hacc, hc]
    simp only [tmplS, hinfo, halts]
    have hsel_eq :
        (match alts.find? (fun cand => acc.contains cand) with
          | some s => some s
          | none => alts.head?) = some (selectAlternative alts acc) := by
      unfold selectAlternative
      cases hf : alts.find? (fun a => acc.contains a) with
      | some s => rfl
      | none =>
          cases alts with
          | nil => exact absurd rfl hne
          | cons h t => rfl
    rw [hsel_eq]
    by_cases hcr : c.residency = some selInfo.residency
    · rw [if_neg (by simp [hcr, hselres])]
      simp [hcr, hc]
    · rw [if_pos ⟨hres_ne, by simpa [hselres] using hcr⟩]
      simp [hselres, hcr, hc]
      rw [if_neg (fun hco => hcr (by rw [hselres]; exact hco))]
  · intro c h
    rcases h with h1 | h2
    · rw [normalizeContext, if_pos (by simp [h1])]
    · by_cases h1 : truthyS c.insightLocationId = true
      · rw [normalizeContext, if_neg (by simp [h1]), h2]
      · rw [normalizeContext, if_pos (by simpa using h1)]
  · intro st
    have hnv : ∀ e r : Option String,
        normalizeContext
          { environment := e, residency := r,
            insightLocationId := some "insight-us-virginia",
            accessible := some ["defender-us-ashburn"] } =
          { environment := e, residency := some "US",
            insightLocationId := some "defender-us-ashburn",
            accessible := some ["defender-us-ashburn"] } := by
      intro e r
      by_cases hr : r = some "US"
      · simp +decide [normalizeContext, AlInsightLocations, objGet, List.find?, tmplS, truthyS, hr]
      · simp +decide [normalizeContext, AlInsightLocations, objGet, List.find?, tmplS, truthyS, hr]
    simp only [setContext, c5Arg]
    simp +decide [truthyS]
    rcases hfo : findOne { st with nodes := [] }
        (fun n => n.insightLocationId == some "insight-us-virginia") with _ | nodeD
    · simp [hfo, hnv]
    · simp only [hfo]
      cases hnr : nodeD.residency with
      | none =>
          simp only [hnr]
          simp [hnv]
      | some sres =>
          by_cases hs : sres = ""
          · simp only [hnr, hs]
            simp [hnv]
          · simp only [hnr]
            simp [hs, hnv]

/-- A concrete context for the C5 witness. -/
def c5Ctx : AlLocationContext :=
  { environment := some "production", residency := some "EMEA",
    insightLocationId := some "insight-us-virginia",
    accessible := some ["defender-us-ashburn"] }

/-- The static-table entry of insight-us-virginia. -/
def c5VirginiaInfo : AlInsightLocationInfo :=
  { residency := "US", residencyCaption := "UNITED STATES",
    alternatives := some ["defender-us-denver", "defender-us-ashburn"],
    logicalRegion := "us-east-1" }

/-- The static-table entry of defender-us-ashburn. -/
def c5AshburnInfo : AlInsightLocationInfo :=
  { residency := "US", residencyCaption := "UNITED STATES", logicalRegion := "us-east-1" }

/-- Witness for C5: the virginia id with an accessible ashburn rewrites to
ashburn and forces residency US; a context without accessible is untouched;
the concrete setContext scenario runs on the empty engine. -/
theorem C5_normalizeContext_witness :
    normalizeContext c5Ctx =
      { c5Ctx with
          insightLocationId :=
            some (selectAlternative ["defender-us-denver", "defender-us-ashburn"]
              ["defender-us-ashburn"]),
          residency :=
            if c5Ctx.residency = some c5AshburnInfo.residency then c5Ctx.residency
            else some c5AshburnInfo.residency } ∧
    normalizeContext { environment := some "production" } =
      { environment := some "production" } ∧
    (setContext emptyMatrix (some c5Arg)).context.residency = some "US" :=
  ⟨C5_normalizeContext.1 c5Ctx "insight-us-virginia" ["defender-us-ashburn"]
      c5VirginiaInfo c5AshburnInfo ["defender-us-denver", "defender-us-ashburn"]
      (by decide) (by decide) (by decide) (by decide) (by decide) (by decide) (by decide),
   C5_normalizeContext.2.1 { environment := some "production" } (Or.inl (by decide)),
   (C5_normalizeContext.2.2 emptyMatrix).2⟩

/-! ## Claim C4: wildcard compilation (code bug: only the first star) -/

/-- C4 (code_bug): the source comment says every asterisk wildcard becomes a
one-or-more word-character match, and the catalog in the same file registers
aliases with two and three wildcards, but the replacement regex carries no
global flag, so only the FIRST asterisk is converted; a later asterisk
survives as a regex quantifier on the preceding (escaped) character.  At the
two-wildcard alias the emitted pattern retains a literal asterisk, the URL
obtained by substituting word characters for both wildcards is rejected, and
a URL with the second wildcard segment missing entirely is accepted. -/
theorem C4_escape_single_star_bug :
    escapeLocationPattern "https://app-*-*.ui-dev.product.dev.alertlogic.com" =
      "^https:\\/\\/app\\-[a-zA-Z0-9_]+\\-*\\.ui\\-dev\\.product\\.dev\\.alertlogic\\.com.*$" ∧
    regexTest (escapeLocationPattern "https://app-*-*.ui-dev.product.dev.alertlogic.com")
      "https://app-x-y.ui-dev.product.dev.alertlogic.com" = false ∧
    regexTest (escapeLocationPattern "https://app-*-*.ui-dev.product.dev.alertlogic.com")
      "https://app-x.ui-dev.product.dev.alertlogic.com" = true := by
  exact ⟨by decide, by decide, by decide⟩

/-! ## Claim C9: setActingUri and the acting state -/

/-- The single catalog node of the C9 counterexample. -/
def c9Node : AlLocationDescriptor :=
  { locTypeId := "dev:app", uri := "http://localhost:9999", environment := some "development" }

/-- C9 counterexample engine. -/
def c9State : AlLocatorMatrix := setLocations emptyMatrix [c9Node]

/-- C9 counterexample: calling setActingUri with false does NOT clear the
acting state: in a windowless runtime the placeholder URI is stored, node
detection runs (finding the localhost node), and the ambient context is
reseeded from it — the claim asserts cleared state, no detection and an
unmodified context. -/
theorem C9_counterexample_false_detects :
    (setActingUri c9State (ActingUriArg.bool false)).actingUri = some "http://localhost:9999" ∧
    (setActingUri c9State (ActingUriArg.bool false)).actor = some 0 ∧
    c9State.context.environment = some "production" ∧
    (setActingUri c9State (ActingUriArg.bool false)).context.environment =
      some "development" := by
  exact ⟨by decide, by decide, by decide, by decide⟩

/-- C9 (corrected): only a null argument clears the acting state (stored URI
and actor reset, no detection, every other field of the engine untouched); a
boolean argument — false exactly like true — is replaced by the ambient
window location string (or the localhost placeholder) and triggers
auto-detection. -/
theorem C9_setActingUri_null_clears :
    (∀ st : AlLocatorMatrix,
      setActingUri st ActingUriArg.jsNull = { st with actingUri := none, actor := none }) ∧
    (∀ (st : AlLocatorMatrix) (b : Bool),
      setActingUri st (ActingUriArg.bool b) =
        setActingUri st (ActingUriArg.str (windowLocationString st.window))) := by
  exact ⟨fun st => rfl, fun st b => rfl⟩

/-! ## Claim C6: setContext memo flush and merge -/

/-- Seed engine of the C6 counterexample: an insight location id is bound
before any catalog is loaded. -/
def c6Seed : AlLocatorMatrix :=
  setContext emptyMatrix (some { insightLocationId := some "locX" })

/-- The catalog node of the C6 counterexample: it carries the bound insight
location id and an EMEA residency. -/
def c6Node : AlLocationDescriptor :=
  { locTypeId := "foo:svc", environment := some "production", residency := some "EMEA",
    insightLocationId := some "locX", uri := "https://foo.example.com" }

/-- C6 counterexample engine. -/
def c6State : AlLocatorMatrix := setLocations c6Seed [c6Node]

/-- C6 counterexample: a setContext call with NO argument — every field
omitted — still changes the residency (from US to EMEA), because the block
that pulls the residency of a catalog node carrying the bound insight
location id runs on every call; the merge clause of the claim promises the
residency stays untouched. -/
theorem C6_counterexample_residency_changes :
    c6State.context.residency = some "US" ∧
    (setContext c6State none).context.residency = some "EMEA" := by
  exact ⟨by decide, by decide⟩

theorem normalizeContext_environment (c : AlLocationContext) :
    (normalizeContext c).environment = c.environment := by
  rw [normalizeContext]
  dsimp only
  repeat' split
  all_goals rfl

theorem normalizeContext_accessible (c : AlLocationContext) :
    (normalizeContext c).accessible = c.accessible := by
  rw [normalizeContext]
  dsimp only
  repeat' split
  all_goals rfl

/-- C6 (corrected): every call to setContext — with or without an argument —
synchronously empties the per-typeId lookup memo before returning, so a
subsequent ambient getNode can never be served from a memo entry of the
previous context; environment is overwritten only by a truthy argument value
and accessible only by a non-empty argument value.  (The original claim fails
for residency and insightLocationId: beyond the truthy merge, setContext may
rewrite residency from a catalog node carrying the bound insight location id
or from the data-center table, and normalization may rewrite
insightLocationId, even when those fields are absent from the argument.) -/
theorem C6_setContext_flushes_memo_and_merges :
    (∀ (st : AlLocatorMatrix) (ctx : Option AlLocationContext),
      (setContext st ctx).nodes = [] ∧
      (∀ t : String, objHas (setContext st ctx).nodes t = false)) ∧
    (∀ (st : AlLocatorMatrix) (ctx : Option AlLocationContext),
      (setContext st ctx).context.environment =
        (match ctx with
          | some a => if truthyS a.environment then a.environment else st.context.environment
          | none => st.context.environment)) ∧
    (∀ (st : AlLocatorMatrix) (ctx : Option AlLocationContext),
      (setContext st ctx).context.accessible =
        (match ctx with
          | some a =>
            match a.accessible with
            | some l => if l ≠ [] then some l else st.context.accessible
            | none => st.context.accessible
          | none => st.context.accessible)) := by
  refine ⟨?_, ?_, ?_⟩
  · intro st ctx
    exact ⟨rfl, fun t => rfl⟩
  · intro st ctx
    simp only [setContext, normalizeContext_environment]
    rcases ctx with _ | a <;> dsimp only <;> (repeat' split) <;> rfl
  · intro st ctx
    simp only [setContext, normalizeContext_accessible]
    rcases ctx with _ | a <;> dsimp only <;> (repeat' split) <;> rfl

/-! ## Claim C7: resolveNodeURI composition -/

/-- Node of the C7 counterexample whose uri carries a non-http protocol
scheme. -/
def c7FtpNode : AlLocationDescriptor :=
  { locTypeId := "files:ftp", uri := "ftp://files.example.com" }

/-- Node of the C7 counterexample whose schemeless uri happens to begin with
the characters http. -/
def c7HttpxNode : AlLocationDescriptor :=
  { locTypeId := "h:x", uri := "httpx.example.com" }

/-- C7 counterexample engine. -/
def c7State : AlLocatorMatrix := setLocations emptyMatrix [c7FtpNode, c7HttpxNode]

/-- C7 counterexample: the implementation tests whether the accumulated uri
starts with the four characters http, not whether it begins with a protocol
scheme.  A parentless node with the scheme ftp:// (hence, per the claim, no
https:// prefix) is prefixed anyway, and a parentless schemeless uri that
merely starts with the characters http (which the claim says must be
prefixed) is returned bare. -/
theorem C7_counterexample_scheme_vs_http :
    (resolveNodeURI 1 c7State none 0).1 = "https://ftp://files.example.com" ∧
    (resolveNodeURI 1 c7State none 1).1 = "httpx.example.com" := by
  exact ⟨by decide, by decide⟩

/-- The protocol normalization the source applies to a parentless node: the
uri is kept when its first four characters are http (the source checks
indexOf("http") !== 0, a literal character test, not a scheme test), else
https:// is prepended. -/
def httpPrefixNormalize (u : String) : String :=
  if u.data.take 4 = "http".data then u else "https://" ++ u

/-- C7 (corrected): resolveNodeURI composes URLs recursively.  For a child
with a truthy parentId and non-empty uri whose ambient parent lookup finds a
node carrying a truthy cached fullURI s, the result is s concatenated with
the child uri, and the child fullURI cache is filled with that result (the
computed value is stored whenever the cache was unset).  For the same child
when the found parent is instead a freshly loaded node - cache unset,
parentless, non-empty uri - the result is the parent's normalized uri
concatenated with the child uri, with both caches filled (in particular a
parent uri already starting with http, such as https://p.example.com, is
used verbatim).  A parentless node with unset cache and non-empty uri
resolves to the uri itself when its first four characters are http, and to
https:// prepended to the uri otherwise (the source checks the literal
character prefix http, not a protocol scheme), again storing the result.  A
node whose fullURI cache holds a truthy value returns that cached value with
the engine unchanged. -/
theorem C7_resolveNodeURI_composition :
    (∀ (st : AlLocatorMatrix) (i j fuel : Nat) (C P : AlLocationDescriptor) (s : String),
      heapGet st i = C →
      truthyS C.fullURI = false →
      truthyS C.parentId = true →
      C.uri ≠ "" →
      (getNode st (tmplS C.parentId) none).1 = some j →
      heapGet st j = P →
      P.fullURI = some s → s ≠ "" →
      resolveNodeURI (fuel + 2) st none i =
        (s ++ C.uri,
          heapSet (getNode st (tmplS C.parentId) none).2 i
            { C with fullURI := some (s ++ C.uri) })) ∧
    (∀ (st : AlLocatorMatrix) (i j fuel : Nat) (C P : AlLocationDescriptor),
      heapGet st i = C →
      truthyS C.fullURI = false →
      truthyS C.parentId = true →
      C.uri ≠ "" →
      (getNode st (tmplS C.parentId) none).1 = some j →
      heapGet st j = P →
      truthyS P.fullURI = false →
      truthyS P.parentId = false →
      P.uri ≠ "" →
      resolveNodeURI (fuel + 2) st none i =
        (httpPrefixNormalize P.uri ++ C.uri,
          heapSet (heapSet (getNode st (tmplS C.parentId) none).2 j
              { P with fullURI := some (httpPrefixNormalize P.uri) }) i
            { C with fullURI := some (httpPrefixNormalize P.uri ++ C.uri) })) ∧
    (∀ (st : AlLocatorMatrix) (i fuel : Nat) (N : AlLocationDescriptor),
      heapGet st i = N →
      truthyS N.fullURI = false →
      truthyS N.parentId = false →
      N.uri ≠ "" →
      resolveNodeURI (fuel + 1) st none i =
        (httpPrefixNormalize N.uri,
          heapSet st i { N with fullURI := some (httpPrefixNormalize N.uri) })) ∧
    (∀ (st : AlLocatorMatrix) (i fuel : Nat) (s : String),
      (heapGet st i).fullURI = some s → s ≠ "" →
      resolveNodeURI (fuel + 1) st none i = (s, st)) := by
  have hcache : ∀ (st : AlLocatorMatrix) (i fuel : Nat) (s : String),
      (heapGet st i).fullURI = some s → s ≠ "" →
      resolveNodeURI (fuel + 1) st none i = (s, st) := by
    intro st i fuel s hs hne
    rw [resolveNodeURI]
    rw [if_pos (by rw [hs]; exact (truthyS_some_iff s).2 hne)]
    rw [hs]
    rfl
  have hbare : ∀ (st : AlLocatorMatrix) (i fuel : Nat) (N : AlLocationDescriptor),
      heapGet st i = N →
      truthyS N.fullURI = false →
      truthyS N.parentId = false →
      N.uri ≠ "" →
      resolveNodeURI (fuel + 1) st none i =
        (httpPrefixNormalize N.uri,
          heapSet st i { N with fullURI := some (httpPrefixNormalize N.uri) }) := by
    intro st i fuel N hN hNfull hNpar hNuri
    rw [resolveNodeURI, hN]
    rw [if_neg (by rw [hNfull]; simp)]
    rw [if_neg (by simp [hNpar])]
    have hemp : ("" : String) ++ N.uri = N.uri := by
      cases N.uri
      rfl
    simp only [if_pos hNuri]
    rw [if_pos (show ¬ truthyS N.parentId = true by simp [hNpar])]
    rw [hemp, httpPrefixNormalize]
    by_cases ht : N.uri.data.take 4 = "http".data
    · rw [if_neg (by simp [ht]), if_pos ht]
    · rw [if_pos ht, if_neg ht]
  refine ⟨?_, ?_, hbare, hcache⟩
  · intro st i j fuel C P s hC hCfull hCpar hCuri hpar hP hPfull hsne
    rw [resolveNodeURI, hC]
    rw [if_neg (by rw [hCfull]; simp)]
    have hheap : (getNode st (tmplS C.parentId) none).2.heap = st.heap :=
      getNode_heap st (tmplS C.parentId) none
    have hPj : heapGet (getNode st (tmplS C.parentId) none).2 j = P := by
      rw [heapGet, hheap, ← heapGet, hP]
    rcases hg : getNode st (tmplS C.parentId) none with ⟨o, st1⟩
    have ho : o = some j := by rw [hg] at hpar; exact hpar
    subst ho
    have hP1 : heapGet st1 j = P := by rw [hg] at hPj; exact hPj
    have hrec : resolveNodeURI (fuel + 1) st1 none j = (s, st1) := by
      refine hcache st1 j fuel s ?_ hsne
      rw [hP1, hPfull]
    rw [if_pos hCpar]
    simp [hrec, hCuri, hCpar]
  · intro st i j fuel C P hC hCfull hCpar hCuri hpar hP hPfull hPpar hPuri
    rw [resolveNodeURI, hC]
    rw [if_neg (by rw [hCfull]; simp)]
    have hheap : (getNode st (tmplS C.parentId) none).2.heap = st.heap :=
      getNode_heap st (tmplS C.parentId) none
    have hPj : heapGet (getNode st (tmplS C.parentId) none).2 j = P := by
      rw [heapGet, hheap, ← heapGet, hP]
    rcases hg : getNode st (tmplS C.parentId) none with ⟨o, st1⟩
    have ho : o = some j := by rw [hg] at hpar; exact hpar
    subst ho
    have hP1 : heapGet st1 j = P := by rw [hg] at hPj; exact hPj
    have hrec : resolveNodeURI (fuel + 1) st1 none j =
        (httpPrefixNormalize P.uri,
          heapSet st1 j { P with fullURI := some (httpPrefixNormalize P.uri) }) :=
      hbare st1 j fuel P hP1 hPfull hPpar hPuri
    rw [if_pos hCpar]
    simp [hrec, hCuri, hCpar]

/-- Parent node of the C7 witness, with a cached fullURI. -/
def c7Parent : AlLocationDescriptor :=
  { locTypeId := "p:id", uri := "https://p.example.com",
    fullURI := some "https://p.example.com" }

/-- Child node of the C7 witness. -/
def c7Child : AlLocationDescriptor :=
  { locTypeId := "c:id", parentId := some "p:id", uri := "/child" }

/-- Engine with the C7 parent and child loaded. -/
def c7ChildState : AlLocatorMatrix := setLocations emptyMatrix [c7Parent, c7Child]

/-- Parentless protocol-less node of the C7 witness. -/
def c7Bare : AlLocationDescriptor := { locTypeId := "b:x", uri := "bare.example.com" }

/-- Engine with the C7 bare node loaded. -/
def c7BareState : AlLocatorMatrix := setLocations emptyMatrix [c7Bare]

/-- Freshly loaded parent of the C7 witness: no cached fullURI. -/
def c7FreshParent : AlLocationDescriptor :=
  { locTypeId := "fp:id", uri := "https://p.example.com" }

/-- Child of the fresh C7 parent. -/
def c7FreshChild : AlLocationDescriptor :=
  { locTypeId := "fc:id", parentId := some "fp:id", uri := "/child" }

/-- Engine with the fresh C7 parent and child loaded, caches unset. -/
def c7FreshState : AlLocatorMatrix := setLocations emptyMatrix [c7FreshParent, c7FreshChild]

/-- Witness for C7: the child composes under the cached parent and under the
freshly loaded uncached parent (yielding https://p.example.com/child), the
bare node gains the https:// prefix, and the cached parent answers its
cache. -/
theorem C7_resolveNodeURI_composition_witness :
    resolveNodeURI 2 c7ChildState none 1 =
      ("https://p.example.com" ++ "/child",
        heapSet (getNode c7ChildState (tmplS c7Child.parentId) none).2 1
          { c7Child with fullURI := some ("https://p.example.com" ++ "/child") }) ∧
    (resolveNodeURI 2 c7FreshState none 1 =
      (httpPrefixNormalize c7FreshParent.uri ++ c7FreshChild.uri,
        heapSet (heapSet (getNode c7FreshState (tmplS c7FreshChild.parentId) none).2 0
            { c7FreshParent with fullURI := some (httpPrefixNormalize c7FreshParent.uri) }) 1
          { c7FreshChild with
              fullURI := some (httpPrefixNormalize c7FreshParent.uri ++ c7FreshChild.uri) }) ∧
      httpPrefixNormalize c7FreshParent.uri ++ c7FreshChild.uri = "https://p.example.com/child") ∧
    resolveNodeURI 1 c7BareState none 0 =
      (httpPrefixNormalize c7Bare.uri,
        heapSet c7BareState 0 { c7Bare with fullURI := some (httpPrefixNormalize c7Bare.uri) }) ∧
    httpPrefixNormalize c7Bare.uri = "https://bare.example.com" ∧
    resolveNodeURI 1 c7ChildState none 0 = ("https://p.example.com", c7ChildState) :=
  ⟨C7_resolveNodeURI_composition.1 c7ChildState 1 0 0 c7Child c7Parent "https://p.example.com"
      (by decide) (by decide) (by decide) (by decide) (by decide) (by decide) (by decide)
      (by decide),
   ⟨C7_resolveNodeURI_composition.2.1 c7FreshState 1 0 0 c7FreshChild c7FreshParent
      (by decide) (by decide) (by decide) (by decide) (by decide) (by decide) (by decide)
      (by decide) (by decide),
    by decide⟩,
   C7_resolveNodeURI_composition.2.2.1 c7BareState 0 0 c7Bare
      (by decide) (by decide) (by decide) (by decide),
   by decide,
   C7_resolveNodeURI_composition.2.2.2 c7ChildState 0 0 "https://p.example.com"
      (by decide) (by decide)⟩

/-! ## Claim C1: getNode fallback priority -/

/-- A left fold that overwrites its accumulator at every element satisfying
the guard computes the value of the LAST satisfying element. -/
theorem foldl_override_eq_getLast {α β : Type} (l : List α) (P : α → Prop) [DecidablePred P]
    (h : α → Option β) :
    l.foldl (fun acc a => if P a then h a else acc) none =
      (match (l.filter (fun a => decide (P a))).getLast? with
        | some a => h a
        | none => none) := by
  induction l using List.reverseRecOn with
  | nil => rfl
  | append_singleton l a ih =>
      rw [List.foldl_append, List.foldl_cons, List.foldl_nil, List.filter_append]
      by_cases hp : P a
      · simp [hp]
      · simp only [List.filter_cons, List.filter_nil]
        rw [if_neg hp, if_neg (show ¬ decide (P a) = true by simpa using hp), List.append_nil]
        exact ih

/-- The lookup order the claim describes, with the single amendment that
among the accessible ids the LAST one whose key is present wins (the source
loop has no break).  Keys are tried in order, stopping at the first present
one; when no key is present the result is none. -/
def lookupSpec (m : List (String × Nat)) (t e r : String) (insight : Option String)
    (acc : List String) : Option Nat :=
  let try1 : Option Nat :=
    match insight with
    | some L => objGet m (nodeKey4 t e r L)
    | none => none
  match try1 with
  | some n => some n
  | none =>
    match (acc.filter (fun a =>
        decide (some a ≠ insight ∧ objHas m (nodeKey4 t e r a) = true))).getLast? with
    | some a => objGet m (nodeKey4 t e r a)
    | none =>
      match objGet m (nodeKey3 t e r) with
      | some n => some n
      | none =>
        match objGet m (nodeKey3 t e "*") with
        | some n => some n
        | none => objGet m (nodeKey3 t "*" "*")

/-- The lookup order exactly as the claim words it: the FIRST accessible id
whose key is present wins in step 2. -/
def lookupClaimFirstHit (m : List (String × Nat)) (t e r : String) (insight : Option String)
    (acc : List String) : Option Nat :=
  let try1 : Option Nat :=
    match insight with
    | some L => objGet m (nodeKey4 t e r L)
    | none => none
  match try1 with
  | some n => some n
  | none =>
    match acc.find? (fun a =>
        decide (some a ≠ insight ∧ objHas m (nodeKey4 t e r a) = true)) with
    | some a => objGet m (nodeKey4 t e r a)
    | none =>
      match objGet m (nodeKey3 t e r) with
      | some n => some n
      | none =>
        match objGet m (nodeKey3 t e "*") with
        | some n => some n
        | none => objGet m (nodeKey3 t "*" "*")

/-- First catalog node of the C1 counterexample (insight location A). -/
def c1NodeA : AlLocationDescriptor :=
  { locTypeId := "t:x", environment := some "production", residency := some "US",
    insightLocationId := some "A", uri := "https://a.example.com" }

/-- Second catalog node of the C1 counterexample (insight location B). -/
def c1NodeB : AlLocationDescriptor :=
  { locTypeId := "t:x", environment := some "production", residency := some "US",
    insightLocationId := some "B", uri := "https://b.example.com" }

/-- C1 counterexample engine: both nodes loaded, ambient context with
accessible = [A, B] and no insight location id. -/
def c1State : AlLocatorMatrix :=
  setContext (setLocations emptyMatrix [c1NodeA, c1NodeB]) (some { accessible := some ["A", "B"] })

/-- C1 counterexample: with nodes for A and B both registered and accessible
in the order [A, B], the claim (stopping at the FIRST accessible id whose key
is present) demands the A node (heap id 0), but the source loop keeps
overwriting and getNode returns the B node (heap id 1): the two descriptors
differ. -/
theorem C1_counterexample_first_hit :
    (getNode c1State "t:x" none).1 = some 1 ∧
    lookupClaimFirstHit c1State.nodeMap "t:x" "production" "US" none ["A", "B"] = some 0 ∧
    heapGet c1State 0 = c1NodeA ∧
    heapGet c1State 1 = c1NodeB ∧
    c1NodeA ≠ c1NodeB := by
  exact ⟨by decide, by decide, by decide, by decide, by decide⟩

theorem objHas_of_objGet {α : Type} {m : List (String × α)} {k : String} {v : α}
    (h : objGet m k = some v) : objHas m k = true := by
  induction m with
  | nil => simp [objGet_nil] at h
  | cons p t ih =>
      rw [objGet_cons] at h
      rw [objHas_cons]
      by_cases hk : p.1 = k
      · simp [hk]
      · rw [if_neg hk] at h
        simp [ih h]

theorem objHas_false_of_objGet_none {α : Type} {m : List (String × α)} {k : String}
    (h : objGet m k = none) : objHas m k = false := by
  cases hh : objHas m k
  · rfl
  · have := objGet_isSome_of_objHas hh
    rw [h] at this
    simp at this

/-- Steps 3-5 of the getNode chain equal the claimed ordered trial of the
three remaining keys. -/
theorem lookupChain3_eq (m : List (String × Nat)) (k3 k4 k5 : String) :
    (let node : Option Nat := if objHas m k3 = true then objGet m k3 else none
     let node : Option Nat := if node = none ∧ objHas m k4 = true then objGet m k4 else node
     if node = none ∧ objHas m k5 = true then objGet m k5 else node)
    = (match objGet m k3 with
       | some n => some n
       | none =>
         match objGet m k4 with
         | some n => some n
         | none => objGet m k5) := by
  rcases hg3 : objGet m k3 with _ | n3
  · have h3 := objHas_false_of_objGet_none hg3
    rcases hg4 : objGet m k4 with _ | n4
    · have h4 := objHas_false_of_objGet_none hg4
      rcases hg5 : objGet m k5 with _ | n5
      · have h5 := objHas_false_of_objGet_none hg5
        simp [h3, h4, h5, hg3, hg4, hg5]
      · have h5 := objHas_of_objGet hg5
        simp [h3, h4, h5, hg3, hg4, hg5]
    · have h4 := objHas_of_objGet hg4
      simp [h3, h4, hg3, hg4]
  · have h3 := objHas_of_objGet hg3
    simp [h3, hg3]

/-- Steps 2-5 of the getNode chain, with the step-1 result abstract, equal
the claimed ordered trial with the last-accessible-hit amendment. -/
theorem lookupChain_eq (m : List (String × Nat)) (K : String → String) (k3 k4 k5 : String)
    (eI : Option String) (acc : List String) (n1 : Option Nat) :
    (let node : Option Nat :=
      if n1 = none ∧ acc ≠ [] then
        acc.foldl (fun a2 aid =>
          if some aid ≠ eI ∧ objHas m (K aid) = true then objGet m (K aid) else a2) none
      else n1
     let node : Option Nat := if node = none ∧ objHas m k3 = true then objGet m k3 else node
     let node : Option Nat := if node = none ∧ objHas m k4 = true then objGet m k4 else node
     if node = none ∧ objHas m k5 = true then objGet m k5 else node)
    = (match n1 with
       | some n => some n
       | none =>
         match (acc.filter (fun a =>
             decide (some a ≠ eI ∧ objHas m (K a) = true))).getLast? with
         | some a => objGet m (K a)
         | none =>
           match objGet m k3 with
           | some n => some n
           | none =>
             match objGet m k4 with
             | some n => some n
             | none => objGet m k5) := by
  rcases n1 with _ | n
  · by_cases hacc : acc = []
    · subst hacc
      simp only [List.filter_nil, List.getLast?_nil, ne_eq, not_true_eq_false, and_false,
        if_false, eq_self_iff_true, true_and]
      exact lookupChain3_eq m k3 k4 k5
    · rw [if_pos (⟨rfl, hacc⟩ : (none : Option Nat) = none ∧ acc ≠ [])]
      rw [foldl_override_eq_getLast acc
        (fun aid => some aid ≠ eI ∧ objHas m (K aid) = true)
        (fun aid => objGet m (K aid))]
      rcases hlast : (acc.filter (fun a =>
          decide (some a ≠ eI ∧ objHas m (K a) = true))).getLast? with _ | a
      · simp only [hlast, eq_self_iff_true, true_and]
        exact lookupChain3_eq m k3 k4 k5
      · have hmem : a ∈ acc.filter (fun a =>
            decide (some a ≠ eI ∧ objHas m (K a) = true)) := by
          obtain ⟨hne, heq⟩ := List.mem_getLast?_eq_getLast (by rw [Option.mem_def, hlast])
          rw [heq]
          exact List.getLast_mem hne
        have hP : some a ≠ eI ∧ objHas m (K a) = true :=
          of_decide_eq_true (List.mem_filter.1 hmem).2
        obtain ⟨n2, hn2⟩ := Option.isSome_iff_exists.1 (objGet_isSome_of_objHas hP.2)
        simp only [hlast]
        rw [hn2]
        simp
  · simp

/-- C1 (corrected): every getNode call that is not served from the per-typeId
memo, whose effective environment and residency are truthy and whose
effective insight location id is absent or truthy, is determined by trying
index keys in the claimed order and stopping at the first present key — with
one amendment: among the accessible ids of step 2 the LAST id whose key is
present wins, because the source loop does not break on a hit.  Steps 1 and
3-5 are exactly as claimed; in particular the (environment, asterisk) key is
preferred over the (asterisk, asterisk) key, and a lookup with no present key
answers none. -/
theorem C1_getNode_follows_priority :
    ∀ (st : AlLocatorMatrix) (t : String) (ctx : Option AlLocationContext),
      ¬ (objHas st.nodes t = true ∧ ctx = none) →
      truthyS (effEnvironment st ctx) = true →
      truthyS (effResidency st ctx) = true →
      (effInsightLocationId st ctx = none ∨ truthyS (effInsightLocationId st ctx) = true) →
      (getNode st t ctx).1 =
        lookupSpec st.nodeMap t (tmplS (effEnvironment st ctx)) (tmplS (effResidency st ctx))
          (effInsightLocationId st ctx) ((effAccessible st ctx).getD []) := by
  intro st t ctx hmemo henv hres hins
  rw [getNode, if_neg hmemo, lookupSpec.eq_def]
  generalize heE : effEnvironment st ctx = eE at henv ⊢
  generalize heR : effResidency st ctx = eR at hres ⊢
  generalize heI : effInsightLocationId st ctx = eI at hins ⊢
  generalize heA : effAccessible st ctx = eA
  clear heE heR heI heA hmemo
  dsimp only
  rcases hins with h | h
  · subst h
    simp only [truthyS_none, Bool.false_eq_true, if_false]
    simp only [henv, hres, eq_self_iff_true, true_and]
    have hch := lookupChain_eq st.nodeMap
      (fun aid => nodeKey4 t (tmplS eE) (tmplS eR) aid)
      (nodeKey3 t (tmplS eE) (tmplS eR)) (nodeKey3 t (tmplS eE) "*") (nodeKey3 t "*" "*")
      none (eA.getD []) none
    simpa using hch
  · rcases eI with _ | L
    · simp [truthyS] at h
    · rw [if_pos h]
      simp only [henv, hres, eq_self_iff_true, true_and]
      exact lookupChain_eq st.nodeMap
        (fun aid => nodeKey4 t (tmplS eE) (tmplS eR) aid)
        (nodeKey3 t (tmplS eE) (tmplS eR)) (nodeKey3 t (tmplS eE) "*") (nodeKey3 t "*" "*")
        (some L) (eA.getD [])
        (objGet st.nodeMap (nodeKey4 t (tmplS eE) (tmplS eR) (tmplS (some L))))

/-- Witness for C1: at the counterexample engine the amended ordered-trial
description and getNode agree (both answering the B node). -/
theorem C1_getNode_follows_priority_witness :
    ¬ (objHas c1State.nodes "t:x" = true ∧ (none : Option AlLocationContext) = none) ∧
    truthyS (effEnvironment c1State none) = true ∧
    (getNode c1State "t:x" none).1 =
      lookupSpec c1State.nodeMap "t:x" (tmplS (effEnvironment c1State none))
        (tmplS (effResidency c1State none)) (effInsightLocationId c1State none)
        ((effAccessible c1State none).getD []) :=
  ⟨by decide, by decide,
    C1_getNode_follows_priority c1State "t:x" none (by decide) (by decide) (by decide)
      (by decide)⟩

/-! ## Claim C3: findByUri round trip -/

/-- Characters that survive escaping as inert regex literals: everything but
the three quantifier characters. -/
def isPlainUriChar (c : Char) : Bool := ¬ (c = '*' ∨ c = '+' ∨ c = '?')

theorem data_append (a b : String) : (a ++ b).data = a.data ++ b.data := by
  cases a; cases b; rfl

theorem takeWhile_append_of_all {p : Char → Bool} {l1 : List Char} (l2 : List Char)
    (h : ∀ a ∈ l1, p a = true) : (l1 ++ l2).takeWhile p = l1 ++ l2.takeWhile p := by
  induction l1 with
  | nil => rfl
  | cons c t ih =>
      simp [List.takeWhile_cons, h c (List.mem_cons_self c t),
        ih (fun a ha => h a (List.mem_cons_of_mem c ha))]

theorem takeWhile_length_lt {p : Char → Bool} {l : List Char} {a : Char}
    (ha : a ∈ l) (hpa : p a = false) : (l.takeWhile p).length < l.length := by
  induction l with
  | nil => simp at ha
  | cons c t ih =>
      rw [List.takeWhile_cons]
      by_cases hc : p c = true
      · rw [hc]
        simp only [if_true, List.length_cons]
        rcases List.mem_cons.1 ha with rfl | hat
        · rw [hc] at hpa; simp at hpa
        · simpa using ih hat
      · rw [Bool.not_eq_true] at hc
        rw [hc]
        simp

theorem escapeAll_cons (c : Char) (l : List Char) :
    escapeAll (c :: l) =
      if c ∈ regexEscapeChars then '\\' :: c :: escapeAll l else c :: escapeAll l := rfl

theorem star_not_mem_escapeAll {l : List Char} (h : ∀ c ∈ l, isPlainUriChar c = true) :
    '*' ∉ escapeAll l := by
  induction l with
  | nil => simp [escapeAll]
  | cons c t ih =>
      have hc : c ≠ '*' := by
        have := h c (List.mem_cons_self c t)
        simp [isPlainUriChar, not_or] at this
        exact this.1
      have ht := ih (fun x hx => h x (List.mem_cons_of_mem c hx))
      rw [escapeAll_cons]
      by_cases hesc : c ∈ regexEscapeChars
      · rw [if_pos hesc]
        simp [hc.symm, ht]
      · rw [if_neg hesc]
        simp [hc.symm, ht]

theorem replaceFirstStar_eq_self {l : List Char} (h : '*' ∉ l) : replaceFirstStar l = l := by
  induction l with
  | nil => rfl
  | cons c t ih =>
      rw [replaceFirstStar]
      rw [if_neg (by intro hc; exact h (hc ▸ List.mem_cons_self c t))]
      rw [ih (fun hx => h (List.mem_cons_of_mem c hx))]

/-- Parsing the escaped form of a quantifier-free character list followed by
the dot-star-terminus tail yields one literal atom per character and a final
starred dot. -/
theorem parseRun_escaped : ∀ (l : List Char) (fuel : Nat),
    (∀ c ∈ l, isPlainUriChar c = true) →
    2 * (escapeAll l).length + 6 ≤ fuel →
    parseRunF fuel none (escapeAll l ++ ['.', '*', '$']) =
      some (l.map (fun c => (RAtom.lit c, RQuant.one)) ++ [(RAtom.dot, RQuant.star)]) := by
  intro l
  induction l with
  | nil =>
      intro fuel _ hfuel
      obtain ⟨k, rfl⟩ : ∃ k, fuel = k + 1 + 1 + 1 := ⟨fuel - 3, by omega⟩
      simp +decide [escapeAll, parseRunF]
  | cons c t ih =>
      intro fuel hplain hfuel
      have hc := hplain c (List.mem_cons_self c t)
      have hcs : ¬ (c = '*' ∨ c = '+' ∨ c = '?') := by
        simpa [isPlainUriChar] using hc
      have ht : ∀ x ∈ t, isPlainUriChar x = true :=
        fun x hx => hplain x (List.mem_cons_of_mem c hx)
      have hstep : ∀ (k : Nat) (a : RAtom),
          parseRunF (k + 1) (some a) (escapeAll t ++ ['.', '*', '$']) =
            (parseRunF k none (escapeAll t ++ ['.', '*', '$'])).map
              (fun ps => (a, RQuant.one) :: ps) := by
        intro k a
        cases t with
        | nil => simp +decide [escapeAll, parseRunF]
        | cons c2 t2 =>
            have hc2 := ht c2 (List.mem_cons_self c2 t2)
            have hcs2 : ¬ (c2 = '*' ∨ c2 = '+' ∨ c2 = '?') := by
              simpa [isPlainUriChar] using hc2
            rw [escapeAll_cons]
            by_cases hesc2 : c2 ∈ regexEscapeChars
            · rw [if_pos hesc2]
              simp +decide [parseRunF]
            · rw [if_neg hesc2]
              rw [List.cons_append, parseRunF_some_cons]
              rw [if_neg (fun h1 => hcs2 (Or.inl h1)), if_neg (fun h2 => hcs2 (Or.inr (Or.inl h2))),
                if_neg (fun h3 => hcs2 (Or.inr (Or.inr h3)))]
      rw [escapeAll_cons]
      by_cases hesc : c ∈ regexEscapeChars
      · rw [if_pos hesc]
        have hlen : (escapeAll (c :: t)).length = (escapeAll t).length + 2 := by
          rw [escapeAll_cons, if_pos hesc]; rfl
        rw [escapeAll_cons, if_pos hesc] at hfuel
        obtain ⟨k, rfl⟩ : ∃ k, fuel = k + 1 + 1 := ⟨fuel - 2, by simp at hfuel; omega⟩
        rw [List.cons_append, List.cons_append]
        have h1 : parseRunF (k + 1 + 1) none
            ('\\' :: (c :: (escapeAll t ++ ['.', '*', '$']))) =
            parseRunF (k + 1) (some (RAtom.lit c)) (escapeAll t ++ ['.', '*', '$']) := by
          simp +decide [parseRunF]
        rw [h1, hstep k (RAtom.lit c)]
        rw [ih k ht (by simp at hfuel; omega)]
        simp
      · rw [if_neg hesc]
        have hbs : c ≠ '\\' := by
          intro hx
          exact hesc (hx ▸ (by decide : ('\\' : Char) ∈ regexEscapeChars))
        have hdl : c ≠ '$' := by
          intro hx
          exact hesc (hx ▸ (by decide : ('$' : Char) ∈ regexEscapeChars))
        have hbr : c ≠ '[' := by
          intro hx
          exact hesc (hx ▸ (by decide : ('[' : Char) ∈ regexEscapeChars))
        have hdot : c ≠ '.' := by
          intro hx
          exact hesc (hx ▸ (by decide : ('.' : Char) ∈ regexEscapeChars))
        rw [escapeAll_cons, if_neg hesc] at hfuel
        obtain ⟨k, rfl⟩ : ∃ k, fuel = k + 1 + 1 := ⟨fuel - 2, by simp at hfuel; omega⟩
        rw [List.cons_append, parseRunF_none_cons]
        rw [if_neg hdl, if_neg hcs, if_neg hbs, if_neg hbr, if_neg hdot]
        rw [hstep k (RAtom.lit c)]
        rw [ih k ht (by simp at hfuel; omega)]
        simp

theorem reMatchSeqF_nil_pat (f : Nat) (s : List Char) :
    reMatchSeqF (f + 1) [] s = s.isEmpty := rfl

theorem reMatchSeqF_one_cons (f : Nat) (a : RAtom) (ps : List (RAtom × RQuant)) (c : Char)
    (s : List Char) :
    reMatchSeqF (f + 1) ((a, RQuant.one) :: ps) (c :: s) =
      (atomMatch a c && reMatchSeqF f ps s) := rfl

theorem reMatchSeqF_star_cons (f : Nat) (a : RAtom) (ps : List (RAtom × RQuant)) (c : Char)
    (s : List Char) :
    reMatchSeqF (f + 1) ((a, RQuant.star) :: ps) (c :: s) =
      (reMatchSeqF f ps (c :: s) || (atomMatch a c && reMatchSeqF f ((a, RQuant.star) :: ps) s)) :=
  rfl

/-- A sequence of one-shot literal atoms followed by a starred dot matches
exactly those characters followed by any line-terminator-free tail. -/
theorem reMatch_lits_dotstar : ∀ (fuel : Nat) (l s : List Char),
    (∀ c ∈ s, isLineTerminator c = false) →
    (l.map (fun c => (RAtom.lit c, RQuant.one)) ++ [(RAtom.dot, RQuant.star)]).length
      + (l ++ s).length < fuel →
    reMatchSeqF fuel (l.map (fun c => (RAtom.lit c, RQuant.one)) ++ [(RAtom.dot, RQuant.star)])
      (l ++ s) = true := by
  intro fuel
  induction fuel with
  | zero =>
      intro l s _ h
      omega
  | succ f ihf =>
      intro l s hs hfuel
      cases l with
      | nil =>
          simp only [List.map_nil, List.nil_append] at hfuel ⊢
          cases s with
          | nil =>
              obtain ⟨g, rfl⟩ : ∃ g, f = g + 1 := ⟨f - 1, by simp at hfuel; omega⟩
              rfl
          | cons c s2 =>
              have hc : isLineTerminator c = false := hs c (List.mem_cons_self c s2)
              have hrec := ihf [] s2 (fun x hx => hs x (List.mem_cons_of_mem c hx))
                (by simp at hfuel ⊢; omega)
              simp only [List.map_nil, List.nil_append] at hrec
              rw [reMatchSeqF_star_cons]
              have hdot : atomMatch RAtom.dot c = true := by simp [atomMatch, hc]
              rw [hdot, hrec]
              simp
      | cons c l2 =>
          rw [List.map_cons, List.cons_append, List.cons_append, reMatchSeqF_one_cons]
          have hlit : atomMatch (RAtom.lit c) c = true := by simp [atomMatch]
          rw [hlit, ihf l2 s hs (by simp at hfuel ⊢; omega)]
          rfl

/-- The compiled pattern of a quantifier-free uri accepts the uri extended by
any line-terminator-free suffix. -/
theorem regexTest_plain_prefix (U S : String)
    (hU : ∀ c ∈ U.data, isPlainUriChar c = true)
    (hS : ∀ c ∈ S.data, isLineTerminator c = false) :
    regexTest (escapeLocationPattern U) (U ++ S) = true := by
  have hstar : '*' ∉ '^' :: escapeAll U.data := by
    intro hmem
    rcases List.mem_cons.1 hmem with h1 | h2
    · exact absurd h1 (by decide)
    · exact star_not_mem_escapeAll hU h2
  have hpat : (escapeLocationPattern U).data = '^' :: (escapeAll U.data ++ ['.', '*', '$']) := by
    show (String.mk (replaceFirstStar ('^' :: escapeAll U.data) ++ ".*$".data)).data = _
    rw [replaceFirstStar_eq_self hstar]
    rfl
  have hparse : parseRegex (escapeLocationPattern U) =
      some (U.data.map (fun c => (RAtom.lit c, RQuant.one)) ++ [(RAtom.dot, RQuant.star)]) := by
    rw [parseRegex, hpat]
    show parseAtoms (escapeAll U.data ++ ['.', '*', '$']) = _
    rw [parseAtoms]
    exact parseRun_escaped U.data _ hU (by simp [List.length_append]; omega)
  rw [regexTest, hparse]
  show reMatchSeq _ (U ++ S).data = true
  rw [data_append, reMatchSeq.eq_def]
  exact reMatch_lits_dotstar _ U.data S.data hS (by omega)

theorem takeWhile_length_le {p : Char → Bool} (l : List Char) :
    (l.takeWhile p).length ≤ l.length := by
  induction l with
  | nil => simp
  | cons c t ih =>
      rw [List.takeWhile_cons]
      by_cases hc : p c = true
      · rw [hc]
        simpa using ih
      · rw [Bool.not_eq_true] at hc
        rw [hc]
        simp

theorem takeWhile_append_stop {p : Char → Bool} {l1 : List Char} (l2 : List Char)
    (h : ∃ a ∈ l1, p a = false) : (l1 ++ l2).takeWhile p = l1.takeWhile p := by
  induction l1 with
  | nil => obtain ⟨a, ha, _⟩ := h; simp at ha
  | cons c t ih =>
      rw [List.cons_append, List.takeWhile_cons, List.takeWhile_cons]
      by_cases hc : p c = true
      · rw [hc]
        simp only [if_true]
        obtain ⟨a, ha, hpa⟩ := h
        rcases List.mem_cons.1 ha with rfl | hat
        · rw [hc] at hpa; simp at hpa
        · rw [ih ⟨a, hat, hpa⟩]
      · rw [Bool.not_eq_true] at hc
        rw [hc]
        simp

/-- The canonical base of a plain uri extended by the round-trip probe suffix
never equals the uri itself (the extension strictly lengthens it, and a hash
inside the uri strictly shortens it). -/
theorem getBaseUrl_ne_self (U : String) (hU : ∀ c ∈ U.data, isPlainUriChar c = true) :
    getBaseUrl (U ++ "/some/path?query=1#frag") ≠ U := by
  have hdata : (getBaseUrl (U ++ "/some/path?query=1#frag")).data =
      (let l1 := (U ++ "/some/path?query=1#frag").data.takeWhile (fun c => c ≠ '#')
       let l2 := l1.takeWhile (fun c => c ≠ '?')
       if l2.getLast? = some '/' then l2.dropLast else l2) := rfl
  intro hEq
  have hlen : (getBaseUrl (U ++ "/some/path?query=1#frag")).data.length = U.data.length := by
    rw [hEq]
  rw [hdata, data_append] at hlen
  dsimp only at hlen
  by_cases hh : '#' ∈ U.data
  · rw [takeWhile_append_stop _ ⟨'#', hh, by simp⟩] at hlen
    have h1len : (U.data.takeWhile (fun c => c ≠ '#')).length < U.data.length :=
      takeWhile_length_lt hh (by simp)
    have h2len : ((U.data.takeWhile (fun c => c ≠ '#')).takeWhile
        (fun c => c ≠ '?')).length ≤ (U.data.takeWhile (fun c => c ≠ '#')).length :=
      takeWhile_length_le _
    by_cases hL : ((U.data.takeWhile (fun c => c ≠ '#')).takeWhile
        (fun c => c ≠ '?')).getLast? = some '/'
    · rw [if_pos hL] at hlen
      rw [List.length_dropLast] at hlen
      omega
    · rw [if_neg hL] at hlen
      omega
  · have hUh : ∀ a ∈ U.data, (fun c => decide (c ≠ '#')) a = true := by
      intro a ha
      simp only [decide_eq_true_eq]
      intro hc
      exact hh (hc ▸ ha)
    rw [takeWhile_append_of_all _ hUh] at hlen
    have hsfx1 : ("/some/path?query=1#frag".data.takeWhile (fun c => c ≠ '#')) =
        "/some/path?query=1".data := by decide
    rw [hsfx1] at hlen
    have hUq : ∀ a ∈ U.data, (fun c => decide (c ≠ '?')) a = true := by
      intro a ha
      simp only [decide_eq_true_eq]
      have := hU a ha
      simp [isPlainUriChar, not_or] at this
      exact this.2.2
    rw [takeWhile_append_of_all _ hUq] at hlen
    have hsfx2 : ("/some/path?query=1".data.takeWhile (fun c => c ≠ '?')) =
        "/some/path".data := by decide
    rw [hsfx2] at hlen
    rw [List.getLast?_append_of_ne_nil _ (by decide)] at hlen
    rw [if_neg (by decide)] at hlen
    rw [List.length_append] at hlen
    have : ("/some/path".data).length = 10 := by decide
    omega

/-- getNodeByURIGo skips every leading entry whose matcher rejects the
target. -/
theorem getNodeByURIGo_skip (st : AlLocatorMatrix) (target : String) :
    ∀ (pre rest : List (String × Nat)),
      (∀ q ∈ pre, regexTest q.1 target = false) →
      getNodeByURIGo st target (pre ++ rest) = getNodeByURIGo st target rest := by
  intro pre
  induction pre with
  | nil => intro rest _; rfl
  | cons q t ih =>
      intro rest h
      rw [List.cons_append, getNodeByURIGo]
      rw [if_neg (by rw [h q (List.mem_cons_self q t)]; simp)]
      exact ih rest (fun x hx => h x (List.mem_cons_of_mem q hx))

/-- On a hit whose canonical base already equals the stored uri, the walk
leaves the engine untouched. -/
theorem getNodeByURIGo_unmodified (st : AlLocatorMatrix) (target : String) :
    ∀ (entries : List (String × Nat)) (i : Nat),
      (getNodeByURIGo st target entries).1 = some i →
      getBaseUrl target = (heapGet st i).uri →
      (getNodeByURIGo st target entries).2 = st := by
  intro entries
  induction entries with
  | nil => intro i h _; simp [getNodeByURIGo] at h
  | cons q t ih =>
      intro i h hbase
      rw [getNodeByURIGo] at h ⊢
      by_cases hm : regexTest q.1 target = true
      · rw [if_pos hm] at h ⊢
        by_cases hb : getBaseUrl target ≠ (heapGet st q.2).uri
        · rw [if_pos hb] at h ⊢
          simp only at h
          have hi : q.2 = i := by simpa using h
          rw [hi] at hb
          exact absurd hbase hb
        · rw [if_neg hb] at h ⊢
      · rw [if_neg hm] at h ⊢
        exact ih i h hbase

/-- The catalog node of the C3 counterexample: its uri carries a wildcard. -/
def c3StarNode : AlLocationDescriptor :=
  { locTypeId := "s:ui", uri := "https://x-*.example.com" }

/-- C3 counterexample engine. -/
def c3StarState : AlLocatorMatrix := setLocations emptyMatrix [c3StarNode]

/-- C3 counterexample: for a loaded descriptor whose uri contains an asterisk
the round trip fails — the compiled matcher wants word characters where the
probe carries the literal asterisk — so findByUri answers none although the
claim promises the descriptor for EVERY loaded uri. -/
theorem C3_counterexample_wildcard_uri :
    (getNodeByURI c3StarState "https://x-*.example.com/some/path?query=1#frag").1 = none := by
  decide

/-- C3 (corrected): for every loaded descriptor N with uri U free of the
regex-quantifier characters (asterisk, plus sign, question mark), provided no
earlier-registered pattern of the URI index matches the probe, findByUri of
U + "/some/path?query=1#frag" returns N; as a side effect N is rewritten in
place: its stored uri and its cached fullUri both become the canonical base
of the probe (fragment, query string and trailing slash stripped).  When the
canonical base of a matched URL already equals the stored uri of the matched
node, the engine is left unmodified. -/
theorem C3_findByUri_roundtrip :
    (∀ (st : AlLocatorMatrix) (i : Nat) (N : AlLocationDescriptor) (U : String)
        (pre post : List (String × Nat)),
      (∀ c ∈ U.data, isPlainUriChar c = true) →
      heapGet st i = N →
      N.uri = U →
      st.uriMap = pre ++ (escapeLocationPattern U, i) :: post →
      (∀ q ∈ pre, regexTest q.1 (U ++ "/some/path?query=1#frag") = false) →
      getNodeByURI st (U ++ "/some/path?query=1#frag") =
        (some i,
          heapSet st i
            { N with uri := getBaseUrl (U ++ "/some/path?query=1#frag"),
                     fullURI := some (getBaseUrl (U ++ "/some/path?query=1#frag")) })) ∧
    (∀ (st : AlLocatorMatrix) (target : String) (i : Nat),
      (getNodeByURI st target).1 = some i →
      getBaseUrl target = (heapGet st i).uri →
      (getNodeByURI st target).2 = st) := by
  constructor
  · intro st i N U pre post hplain hN hUri hmap hpre
    rw [getNodeByURI, hmap, getNodeByURIGo_skip st _ pre _ hpre]
    rw [getNodeByURIGo]
    have hmatch : regexTest (escapeLocationPattern U) (U ++ "/some/path?query=1#frag") = true :=
      regexTest_plain_prefix U "/some/path?query=1#frag" hplain (by decide)
    rw [if_pos hmatch]
    rw [hN]
    rw [if_pos (by rw [hUri]; exact getBaseUrl_ne_self U hplain)]
  · intro st target i h hbase
    rw [getNodeByURI] at h ⊢
    exact getNodeByURIGo_unmodified st target st.uriMap i h hbase

/-- The plain catalog node of the C3 witness. -/
def c3Node : AlLocationDescriptor := { locTypeId := "x:ui", uri := "https://x.example.com" }

/-- C3 witness engine. -/
def c3State : AlLocatorMatrix := setLocations emptyMatrix [c3Node]

/-- The corrected engine after the C3 round trip. -/
def c3Corrected : AlLocatorMatrix :=
  heapSet c3State 0
    { c3Node with uri := "https://x.example.com/some/path",
                  fullURI := some "https://x.example.com/some/path" }

/-- Witness for C3: the concrete round trip of the claim, the concrete
canonical base, and the unmodified re-lookup on the corrected engine. -/
theorem C3_findByUri_roundtrip_witness :
    getNodeByURI c3State ("https://x.example.com" ++ "/some/path?query=1#frag") =
      (some 0,
        heapSet c3State 0
          { c3Node with
              uri := getBaseUrl ("https://x.example.com" ++ "/some/path?query=1#frag"),
              fullURI := some (getBaseUrl ("https://x.example.com" ++ "/some/path?query=1#frag")) }) ∧
    getBaseUrl ("https://x.example.com" ++ "/some/path?query=1#frag") =
      "https://x.example.com/some/path" ∧
    (getNodeByURI c3Corrected "https://x.example.com/some/path").2 = c3Corrected :=
  ⟨C3_findByUri_roundtrip.1 c3State 0 c3Node "https://x.example.com" [] []
      (by decide) (by decide) (by decide) (by decide) (by intro q hq; simp at hq),
   by decide,
   C3_findByUri_roundtrip.2 c3Corrected "https://x.example.com/some/path" 0
      (by decide) (by decide)⟩

/-! ## Claim C8: setLocations rebuild semantics -/

theorem find?_append {α : Type} (l1 l2 : List α) (p : α → Bool) :
    (l1 ++ l2).find? p = (match l1.find? p with | some x => some x | none => l2.find? p) := by
  induction l1 with
  | nil => simp
  | cons c t ih =>
      rw [List.cons_append, List.find?_cons, List.find?_cons]
      by_cases hc : p c = true
      · rw [hc]
      · rw [Bool.not_eq_true] at hc
        rw [hc]
        exact ih

/-- Reading a key after a block of writes: the last write of the key wins,
else the original map answers. -/
theorem objGet_writeList {α : Type} (ws : List (String × α)) (m : List (String × α))
    (k : String) :
    objGet (writeList m ws) k =
      (match ws.reverse.find? (fun p => p.1 == k) with
        | some p => some p.2
        | none => objGet m k) := by
  induction ws using List.reverseRecOn with
  | nil => simp [writeList_nil]
  | append_singleton t w ih =>
      rw [writeList_append]
      rw [List.reverse_append]
      simp only [List.reverse_singleton, List.singleton_append, List.find?_cons]
      by_cases hw : w.1 = k
      · rw [show (w.1 == k) = true by simpa using hw]
        show objGet (objSet (writeList m t) w.1 w.2) k = some w.2
        rw [← hw]
        exact objGet_objSet_self (writeList m t) w.1 w.2
      · rw [show (w.1 == k) = false by simpa using hw]
        show objGet (objSet (writeList m t) w.1 w.2) k = _
        rw [objGet_objSet_ne (writeList m t) w.1 k w.2 (Ne.symm hw)]
        exact ih

theorem objHas_writeList {α : Type} (ws : List (String × α)) (m : List (String × α))
    (k : String) :
    objHas (writeList m ws) k = (ws.any (fun p => p.1 == k) || objHas m k) := by
  induction ws using List.reverseRecOn with
  | nil => simp [writeList_nil]
  | append_singleton t w ih =>
      rw [writeList_append]
      show objHas (objSet (writeList m t) w.1 w.2) k = _
      rw [objHas_objSet, ih, List.any_append, List.any_cons, List.any_nil]
      by_cases hw : w.1 = k <;> simp [hw, Bool.or_comm, Bool.or_left_comm]

/-- The index (position in the catalog) of the last node whose saveNode pass
writes the key, if any. -/
def catalogLastIndex : List AlLocationDescriptor → String → Option Nat
  | [], _ => none
  | d :: ds, k =>
    match catalogLastIndex ds k with
    | some j => some (j + 1)
    | none => if k ∈ nodeKeys d then some 0 else none

theorem catalogLastIndex_lt {k : String} :
    ∀ {C : List AlLocationDescriptor} {j : Nat}, catalogLastIndex C k = some j → j < C.length := by
  intro C
  induction C with
  | nil => intro j h; simp [catalogLastIndex] at h
  | cons d ds ih =>
      intro j h
      rw [catalogLastIndex] at h
      rcases hds : catalogLastIndex ds k with _ | j2
      · rw [hds] at h
        by_cases hk : k ∈ nodeKeys d
        · rw [if_pos hk] at h
          simp at h
          simp [← h]
        · rw [if_neg hk] at h
          simp at h
      · rw [hds] at h
        simp at h
        have := ih hds
        simp [← h]
        omega

/-- Searching a constant-value association block finds that value exactly
when some key matches. -/
theorem find?_const_val {n : Nat} (k : String) :
    ∀ (l : List (String × Nat)), (∀ p ∈ l, p.2 = n) →
      ((l.find? (fun p => p.1 == k)).map (fun p => p.2)) =
        (if l.any (fun p => p.1 == k) then some n else none) := by
  intro l
  induction l with
  | nil => simp
  | cons p t ih =>
      intro h
      rw [List.find?_cons, List.any_cons]
      by_cases hp : p.1 = k
      · rw [show (p.1 == k) = true by simpa using hp]
        simp [h p (List.mem_cons_self p t)]
      · rw [show (p.1 == k) = false by simpa using hp]
        rw [ih (fun x hx => h x (List.mem_cons_of_mem p hx))]
        rw [Bool.false_or]

/-- The last write of a key in the writes of a whole catalog starting at
offset n is the offset plus the catalog-relative last index. -/
theorem lastWrite_catalogNodeWrites (k : String) :
    ∀ (C : List AlLocationDescriptor) (n : Nat),
      (((catalogNodeWrites C n).reverse.find? (fun p => p.1 == k)).map (fun p => p.2)) =
        (catalogLastIndex C k).map (fun j => n + j) := by
  intro C
  induction C with
  | nil => intro n; simp [catalogNodeWrites, catalogLastIndex]
  | cons d ds ih =>
      intro n
      rw [catalogNodeWrites, catalogLastIndex, List.reverse_append]
      rw [find?_append]
      rcases hds : catalogLastIndex ds k with _ | j
      · have hnone : ((catalogNodeWrites ds (n + 1)).reverse.find?
            (fun p => p.1 == k)) = none := by
          have := ih (n + 1)
          rw [hds] at this
          simpa using this
        rw [hnone]
        have hconst : ∀ p ∈ ((nodeKeys d).map (fun k2 => (k2, n))).reverse, p.2 = n := by
          intro p hp
          rw [List.mem_reverse] at hp
          obtain ⟨k2, _, rfl⟩ := List.mem_map.1 hp
          rfl
        rw [find?_const_val k _ hconst]
        by_cases hk : k ∈ nodeKeys d
        · rw [if_pos hk, if_pos ?side]
          · simp
          case side =>
            rw [List.any_eq_true]
            refine ⟨(k, n), ?_, by simp⟩
            rw [List.mem_reverse]
            exact List.mem_map.2 ⟨k, hk, rfl⟩
        · rw [if_neg hk, if_neg ?side2]
          · simp
          case side2 =>
            rw [List.any_eq_true]
            rintro ⟨p, hp, hpk⟩
            rw [List.mem_reverse] at hp
            obtain ⟨k2, hk2, rfl⟩ := List.mem_map.1 hp
            have hk2k : k2 = k := by simpa using hpk
            exact hk (hk2k ▸ hk2)
      · have hsome := ih (n + 1)
        rw [hds] at hsome
        rcases hfind : ((catalogNodeWrites ds (n + 1)).reverse.find? (fun p => p.1 == k)) with _ | q
        · rw [hfind] at hsome
          simp at hsome
        · rw [hfind] at hsome
          rw [hfind]
          simp only [Option.map_some] at hsome ⊢
          simp at hsome
          simp [hsome]
          omega

theorem any_catalogNodeWrites (k : String) (C : List AlLocationDescriptor) :
    ∀ n : Nat, (catalogNodeWrites C n).any (fun p => p.1 == k) = (catalogLastIndex C k).isSome := by
  induction C with
  | nil => intro n; rfl
  | cons d ds ih =>
      intro n
      rw [catalogNodeWrites, catalogLastIndex, List.any_append, ih]
      have hmap : ((nodeKeys d).map (fun k2 => (k2, n))).any (fun p => p.1 == k)
          = (nodeKeys d).any (fun k2 => k2 == k) := by
        induction nodeKeys d with
        | nil => rfl
        | cons a t iht => simp [List.any_cons, iht]
      rw [hmap]
      rcases hds : catalogLastIndex ds k with _ | j
      · by_cases hk : k ∈ nodeKeys d
        · have hany : (nodeKeys d).any (fun k2 => k2 == k) = true :=
            List.any_eq_true.2 ⟨k, hk, by simp⟩
          simp [hany, hk]
        · have hany : (nodeKeys d).any (fun k2 => k2 == k) = false := by
            rw [Bool.eq_false_iff]
            intro hx
            obtain ⟨k2, hk2, hq⟩ := List.any_eq_true.1 hx
            have hk2k : k2 = k := by simpa using hq
            exact hk (hk2k ▸ hk2)
          simp [hany, hk]
      · simp

/-- nodeMap reads after a load: a key written by the catalog resolves to the
heap id of the last catalog node writing it; other keys keep the old answer. -/
theorem objGet_load_nodeMap (st : AlLocatorMatrix) (C : List AlLocationDescriptor) (k : String) :
    objGet (setLocations st C).nodeMap k =
      (match catalogLastIndex C k with
        | some j => some (st.heap.length + j)
        | none => objGet st.nodeMap k) := by
  rw [setLocations_spec]
  show objGet (writeList st.nodeMap (catalogNodeWrites C st.heap.length)) k = _
  rw [objGet_writeList]
  have h := lastWrite_catalogNodeWrites k C st.heap.length
  rcases hf : (catalogNodeWrites C st.heap.length).reverse.find? (fun p => p.1 == k) with _ | q
  all_goals rw [hf] at h
  · rcases hli : catalogLastIndex C k with _ | j
    · rw [hf]
    · rw [hli] at h; simp at h
  · rcases hli : catalogLastIndex C k with _ | j
    · rw [hli] at h; simp at h
    · rw [hli] at h
      simp at h
      rw [hf]
      simp [h]

theorem objHas_load_nodeMap (st : AlLocatorMatrix) (C : List AlLocationDescriptor) (k : String) :
    objHas (setLocations st C).nodeMap k =
      ((catalogLastIndex C k).isSome || objHas st.nodeMap k) := by
  rw [setLocations_spec]
  show objHas (writeList st.nodeMap (catalogNodeWrites C st.heap.length)) k = _
  rw [objHas_writeList, any_catalogNodeWrites]

theorem setLocations_nodes (st : AlLocatorMatrix) (C : List AlLocationDescriptor) :
    (setLocations st C).nodes = st.nodes := by
  rw [setLocations_spec]

theorem setLocations_context (st : AlLocatorMatrix) (C : List AlLocationDescriptor) :
    (setLocations st C).context = st.context := by
  rw [setLocations_spec]

theorem setLocations_heap (st : AlLocatorMatrix) (C : List AlLocationDescriptor) :
    (setLocations st C).heap = st.heap ++ C := by
  rw [setLocations_spec]

theorem getD_append_left {α : Type} [Inhabited α] (l1 l2 : List α) {i : Nat}
    (h : i < l1.length) : (l1 ++ l2).getD i default = l1.getD i default := by
  rw [List.getD_eq_getElem?_getD, List.getD_eq_getElem?_getD, List.getElem?_append, if_pos h]

theorem getD_append_right_off {α : Type} [Inhabited α] (l1 l2 : List α) (j : Nat) :
    (l1 ++ l2).getD (l1.length + j) default = l2.getD j default := by
  rw [List.getD_append_right _ _ _ _ (Nat.le_add_right _ _), Nat.add_sub_cancel_left]

theorem heapGet_load_old (st : AlLocatorMatrix) (C : List AlLocationDescriptor) {i : Nat}
    (h : i < st.heap.length) : heapGet (setLocations st C) i = heapGet st i := by
  rw [heapGet, heapGet, setLocations_heap]
  exact getD_append_left st.heap C h

theorem heapGet_load_new (st : AlLocatorMatrix) (C : List AlLocationDescriptor) (j : Nat) :
    heapGet (setLocations st C) (st.heap.length + j) = C.getD j default := by
  rw [heapGet, setLocations_heap]
  exact getD_append_right_off st.heap C j

theorem mem_objSet {α : Type} {m : List (String × α)} {k : String} {v : α} {p : String × α}
    (h : p ∈ objSet m k v) : p ∈ m ∨ p = (k, v) := by
  induction m with
  | nil => right; simpa [objSet] using h
  | cons q t ih =>
      rw [objSet] at h
      by_cases hq : q.1 = k
      · rw [if_pos hq] at h
        rcases List.mem_cons.1 h with h1 | h2
        · exact Or.inr h1
        · exact Or.inl (List.mem_cons_of_mem q h2)
      · rw [if_neg hq] at h
        rcases List.mem_cons.1 h with h1 | h2
        · exact Or.inl (h1 ▸ List.mem_cons_self q t)
        · rcases ih h2 with h3 | h4
          · exact Or.inl (List.mem_cons_of_mem q h3)
          · exact Or.inr h4

theorem mem_writeList {α : Type} {ws : List (String × α)} :
    ∀ {m : List (String × α)} {p : String × α}, p ∈ writeList m ws → p ∈ m ∨ p ∈ ws := by
  induction ws with
  | nil => intro m p h; rw [writeList_nil] at h; exact Or.inl h
  | cons w t ih =>
      intro m p h
      rw [writeList_cons] at h
      rcases ih h with hm | ht
      · rcases mem_objSet hm with h1 | h2
        · exact Or.inl h1
        · right; rw [h2]; exact List.mem_cons_self _ _
      · exact Or.inr (List.mem_cons_of_mem w ht)

theorem catalogNodeWrites_id_lt {C : List AlLocationDescriptor} :
    ∀ {n : Nat} {p : String × Nat}, p ∈ catalogNodeWrites C n → p.2 < n + C.length := by
  induction C with
  | nil => intro n p h; simp [catalogNodeWrites] at h
  | cons d ds ih =>
      intro n p h
      rw [catalogNodeWrites] at h
      rcases List.mem_append.1 h with h1 | h2
      · obtain ⟨k2, _, rfl⟩ := List.mem_map.1 h1
        simp
      · have := ih h2
        simp at this ⊢
        omega

/-- Every heap id stored in the memo and in the hash index points into the heap. -/
def wfIndices (st : AlLocatorMatrix) : Prop :=
  (∀ p ∈ st.nodes, p.2 < st.heap.length) ∧ ∀ p ∈ st.nodeMap, p.2 < st.heap.length

theorem wf_load_nodeMap (st : AlLocatorMatrix) (C : List AlLocationDescriptor)
    (hwf : ∀ p ∈ st.nodeMap, p.2 < st.heap.length) :
    ∀ p ∈ (setLocations st C).nodeMap, p.2 < (setLocations st C).heap.length := by
  intro p hp
  rw [setLocations_spec] at hp
  have hp2 : p ∈ writeList st.nodeMap (catalogNodeWrites C st.heap.length) := hp
  have hlen : (setLocations st C).heap.length = st.heap.length + C.length := by
    rw [setLocations_heap, List.length_append]
  rw [hlen]
  rcases mem_writeList hp2 with h1 | h2
  · have := hwf p h1
    omega
  · exact catalogNodeWrites_id_lt h2

/-- The descriptor a getNode answer denotes (values, not heap ids). -/
def getNodeVal (st : AlLocatorMatrix) (locTypeId : String) (ctx : Option AlLocationContext) :
    Option AlLocationDescriptor :=
  ((getNode st locTypeId ctx).1).map (heapGet st)

/-- nodeMap reads after a load, at the level of descriptor values. -/
theorem load_nodeMap_val (st : AlLocatorMatrix) (C : List AlLocationDescriptor)
    (hwf : ∀ p ∈ st.nodeMap, p.2 < st.heap.length) (k : String) :
    (objGet (setLocations st C).nodeMap k).map (heapGet (setLocations st C)) =
      (match catalogLastIndex C k with
        | some j => some (C.getD j default)
        | none => (objGet st.nodeMap k).map (heapGet st)) := by
  rw [objGet_load_nodeMap]
  rcases hli : catalogLastIndex C k with _ | j
  · simp only [hli]
    rcases hg : objGet st.nodeMap k with _ | id
    · rfl
    · have hmem := objGet_mem hg
      have hid : id < st.heap.length := hwf _ hmem
      simp [heapGet_load_old st C hid]
  · simp [hli, heapGet_load_new]

/-- Step 1 of the getNode fallback chain (four-part key from the bound
insight location). -/
def lkStep1 (m : List (String × Nat)) (t : String) (e r i : Option String) : Option Nat :=
  if truthyS i then objGet m (nodeKey4 t (tmplS e) (tmplS r) (tmplS i)) else none

/-- Step 2: the no-break loop over the accessible ids. -/
def lkStep2 (m : List (String × Nat)) (t : String) (e r i : Option String)
    (accessible : Option (List String)) (node : Option Nat) : Option Nat :=
  if node = none ∧ accessible.getD [] ≠ [] then
    (accessible.getD []).foldl
      (fun acc aid =>
        if some aid ≠ i ∧ objHas m (nodeKey4 t (tmplS e) (tmplS r) aid) then
          objGet m (nodeKey4 t (tmplS e) (tmplS r) aid)
        else acc)
      none
  else node

/-- Step 3: the (typeId, environment, residency) key. -/
def lkStep3 (m : List (String × Nat)) (t : String) (e r : Option String)
    (node : Option Nat) : Option Nat :=
  if node = none ∧ truthyS e ∧ truthyS r ∧ objHas m (nodeKey3 t (tmplS e) (tmplS r)) then
    objGet m (nodeKey3 t (tmplS e) (tmplS r))
  else node

/-- Step 4: the (typeId, environment, *) key. -/
def lkStep4 (m : List (String × Nat)) (t : String) (e : Option String)
    (node : Option Nat) : Option Nat :=
  if node = none ∧ truthyS e ∧ objHas m (nodeKey3 t (tmplS e) "*") then
    objGet m (nodeKey3 t (tmplS e) "*")
  else node

/-- Step 5: the (typeId, *, *) key. -/
def lkStep5 (m : List (String × Nat)) (t : String) (node : Option Nat) : Option Nat :=
  if node = none ∧ objHas m (nodeKey3 t "*" "*") then objGet m (nodeKey3 t "*" "*") else node

/-- The whole uncached lookup chain of getNode as a function of the hash
index and the effective context fields. -/
def nodeLookup (m : List (String × Nat)) (t : String) (e r i : Option String)
    (accessible : Option (List String)) : Option Nat :=
  lkStep5 m t (lkStep4 m t e (lkStep3 m t e r (lkStep2 m t e r i accessible (lkStep1 m t e r i))))

theorem getNode_eq_nodeLookup (st : AlLocatorMatrix) (t : String)
    (ctx : Option AlLocationContext) :
    getNode st t ctx =
      (if objHas st.nodes t ∧ ctx = none then (objGet st.nodes t, st)
       else
        (nodeLookup st.nodeMap t (effEnvironment st ctx) (effResidency st ctx)
            (effInsightLocationId st ctx) (effAccessible st ctx),
          match nodeLookup st.nodeMap t (effEnvironment st ctx) (effResidency st ctx)
              (effInsightLocationId st ctx) (effAccessible st ctx), ctx with
          | some i, none => { st with nodes := objSet st.nodes t i }
          | _, _ => st)) := by
  rw [getNode]
  rfl

theorem map_none_iff {α β γ : Type} {f : α → γ} {g : β → γ} {o : Option α} {o2 : Option β}
    (h : o.map f = o2.map g) : o = none ↔ o2 = none := by
  cases o <;> cases o2 <;> simp_all

theorem lkFold_congr {γ : Type} (mA mB : List (String × Nat)) (hA hB : Nat → γ)
    (hhas : ∀ k, objHas mA k = objHas mB k)
    (hval : ∀ k, (objGet mA k).map hA = (objGet mB k).map hB)
    (K : String → String) (i : Option String) :
    ∀ (l : List String) (aA : Option Nat) (aB : Option Nat), aA.map hA = aB.map hB →
      (l.foldl (fun acc aid =>
          if some aid ≠ i ∧ objHas mA (K aid) then objGet mA (K aid) else acc) aA).map hA
        = (l.foldl (fun acc aid =>
          if some aid ≠ i ∧ objHas mB (K aid) then objGet mB (K aid) else acc) aB).map hB := by
  intro l
  induction l with
  | nil => intro aA aB h; exact h
  | cons a tl ih =>
      intro aA aB h
      rw [List.foldl_cons, List.foldl_cons]
      apply ih
      by_cases hc : some a ≠ i ∧ objHas mA (K a) = true
      · have hcB : some a ≠ i ∧ objHas mB (K a) = true := ⟨hc.1, by rw [← hhas]; exact hc.2⟩
        rw [if_pos hc, if_pos hcB]
        exact hval _
      · have hcB : ¬ (some a ≠ i ∧ objHas mB (K a) = true) := fun hx =>
          hc ⟨hx.1, by rw [hhas]; exact hx.2⟩
        rw [if_neg hc, if_neg hcB]
        exact h

theorem lkStep1_congr {γ : Type} (mA mB : List (String × Nat)) (hA hB : Nat → γ)
    (hval : ∀ k, (objGet mA k).map hA = (objGet mB k).map hB)
    (t : String) (e r i : Option String) :
    (lkStep1 mA t e r i).map hA = (lkStep1 mB t e r i).map hB := by
  rw [lkStep1, lkStep1]
  by_cases h : truthyS i = true
  · rw [if_pos h, if_pos h]
    exact hval _
  · rw [if_neg h, if_neg h]
    rfl

theorem lkStep2_congr {γ : Type} (mA mB : List (String × Nat)) (hA hB : Nat → γ)
    (hhas : ∀ k, objHas mA k = objHas mB k)
    (hval : ∀ k, (objGet mA k).map hA = (objGet mB k).map hB)
    (t : String) (e r i : Option String) (accessible : Option (List String))
    {nA nB : Option Nat} (hn : nA.map hA = nB.map hB) :
    (lkStep2 mA t e r i accessible nA).map hA = (lkStep2 mB t e r i accessible nB).map hB := by
  rw [lkStep2, lkStep2]
  by_cases h0 : nA = none
  · have h0B : nB = none := (map_none_iff hn).1 h0
    subst h0
    subst h0B
    by_cases ha : accessible.getD [] ≠ []
    · rw [if_pos ⟨rfl, ha⟩, if_pos ⟨rfl, ha⟩]
      exact lkFold_congr mA mB hA hB hhas hval
        (fun aid => nodeKey4 t (tmplS e) (tmplS r) aid) i (accessible.getD []) none none rfl
    · rw [if_neg (fun hc => ha hc.2), if_neg (fun hc => ha hc.2)]
      rfl
  · have h0B : nB ≠ none := fun hx => h0 ((map_none_iff hn).2 hx)
    rw [if_neg (fun hc => h0 hc.1), if_neg (fun hc => h0B hc.1)]
    exact hn

theorem lkStep3_congr {γ : Type} (mA mB : List (String × Nat)) (hA hB : Nat → γ)
    (hhas : ∀ k, objHas mA k = objHas mB k)
    (hval : ∀ k, (objGet mA k).map hA = (objGet mB k).map hB)
    (t : String) (e r : Option String)
    {nA nB : Option Nat} (hn : nA.map hA = nB.map hB) :
    (lkStep3 mA t e r nA).map hA = (lkStep3 mB t e r nB).map hB := by
  rw [lkStep3, lkStep3]
  by_cases h0 : nA = none
  · have h0B : nB = none := (map_none_iff hn).1 h0
    subst h0
    subst h0B
    by_cases hc : truthyS e = true ∧ truthyS r = true ∧
        objHas mA (nodeKey3 t (tmplS e) (tmplS r)) = true
    · rw [if_pos ⟨rfl, hc.1, hc.2.1, hc.2.2⟩,
        if_pos ⟨rfl, hc.1, hc.2.1, by rw [← hhas]; exact hc.2.2⟩]
      exact hval _
    · rw [if_neg (fun hx => hc ⟨hx.2.1, hx.2.2.1, hx.2.2.2⟩),
        if_neg (fun hx => hc ⟨hx.2.1, hx.2.2.1, by rw [hhas]; exact hx.2.2.2⟩)]
      rfl
  · have h0B : nB ≠ none := fun hx => h0 ((map_none_iff hn).2 hx)
    rw [if_neg (fun hc => h0 hc.1), if_neg (fun hc => h0B hc.1)]
    exact hn

theorem lkStep4_congr {γ : Type} (mA mB : List (String × Nat)) (hA hB : Nat → γ)
    (hhas : ∀ k, objHas mA k = objHas mB k)
    (hval : ∀ k, (objGet mA k).map hA = (objGet mB k).map hB)
    (t : String) (e : Option String)
    {nA nB : Option Nat} (hn : nA.map hA = nB.map hB) :
    (lkStep4 mA t e nA).map hA = (lkStep4 mB t e nB).map hB := by
  rw [lkStep4, lkStep4]
  by_cases h0 : nA = none
  · have h0B : nB = none := (map_none_iff hn).1 h0
    subst h0
    subst h0B
    by_cases hc : truthyS e = true ∧ objHas mA (nodeKey3 t (tmplS e) "*") = true
    · rw [if_pos ⟨rfl, hc.1, hc.2⟩, if_pos ⟨rfl, hc.1, by rw [← hhas]; exact hc.2⟩]
      exact hval _
    · rw [if_neg (fun hx => hc ⟨hx.2.1, hx.2.2⟩),
        if_neg (fun hx => hc ⟨hx.2.1, by rw [hhas]; exact hx.2.2⟩)]
      rfl
  · have h0B : nB ≠ none := fun hx => h0 ((map_none_iff hn).2 hx)
    rw [if_neg (fun hc => h0 hc.1), if_neg (fun hc => h0B hc.1)]
    exact hn

theorem lkStep5_congr {γ : Type} (mA mB : List (String × Nat)) (hA hB : Nat → γ)
    (hhas : ∀ k, objHas mA k = objHas mB k)
    (hval : ∀ k, (objGet mA k).map hA = (objGet mB k).map hB)
    (t : String)
    {nA nB : Option Nat} (hn : nA.map hA = nB.map hB) :
    (lkStep5 mA t nA).map hA = (lkStep5 mB t nB).map hB := by
  rw [lkStep5, lkStep5]
  by_cases h0 : nA = none
  · have h0B : nB = none := (map_none_iff hn).1 h0
    subst h0
    subst h0B
    by_cases hc : objHas mA (nodeKey3 t "*" "*") = true
    · rw [if_pos ⟨rfl, hc⟩, if_pos ⟨rfl, by rw [← hhas]; exact hc⟩]
      exact hval _
    · rw [if_neg (fun hx => hc hx.2), if_neg (fun hx => hc (by rw [hhas]; exact hx.2))]
      rfl
  · have h0B : nB ≠ none := fun hx => h0 ((map_none_iff hn).2 hx)
    rw [if_neg (fun hc => h0 hc.1), if_neg (fun hc => h0B hc.1)]
    exact hn

theorem nodeLookup_congr {γ : Type} (mA mB : List (String × Nat)) (hA hB : Nat → γ)
    (hhas : ∀ k, objHas mA k = objHas mB k)
    (hval : ∀ k, (objGet mA k).map hA = (objGet mB k).map hB)
    (t : String) (e r i : Option String) (accessible : Option (List String)) :
    (nodeLookup mA t e r i accessible).map hA = (nodeLookup mB t e r i accessible).map hB := by
  rw [nodeLookup, nodeLookup]
  exact lkStep5_congr mA mB hA hB hhas hval t
    (lkStep4_congr mA mB hA hB hhas hval t e
      (lkStep3_congr mA mB hA hB hhas hval t e r
        (lkStep2_congr mA mB hA hB hhas hval t e r i accessible
          (lkStep1_congr mA mB hA hB hval t e r i))))

theorem effEnvironment_congr {stA stB : AlLocatorMatrix} (ctx : Option AlLocationContext)
    (h : stA.context = stB.context) : effEnvironment stA ctx = effEnvironment stB ctx := by
  cases ctx <;> simp [effEnvironment, h]

theorem effResidency_congr {stA stB : AlLocatorMatrix} (ctx : Option AlLocationContext)
    (h : stA.context = stB.context) : effResidency stA ctx = effResidency stB ctx := by
  cases ctx <;> simp [effResidency, h]

theorem effInsightLocationId_congr {stA stB : AlLocatorMatrix} (ctx : Option AlLocationContext)
    (h : stA.context = stB.context) :
    effInsightLocationId stA ctx = effInsightLocationId stB ctx := by
  cases ctx <;> simp [effInsightLocationId, h]

theorem effAccessible_congr {stA stB : AlLocatorMatrix} (ctx : Option AlLocationContext)
    (h : stA.context = stB.context) : effAccessible stA ctx = effAccessible stB ctx := by
  cases ctx <;> simp [effAccessible, h]

/-- Two engine states with the same memo, the same context, and pointwise
value-equivalent hash indices answer every getNode query with the same
descriptor. -/
theorem getNodeVal_congr (stA stB : AlLocatorMatrix) (t : String)
    (ctx : Option AlLocationContext)
    (hnodes : stA.nodes = stB.nodes)
    (hctx : stA.context = stB.context)
    (hhas : ∀ k, objHas stA.nodeMap k = objHas stB.nodeMap k)
    (hval : ∀ k, (objGet stA.nodeMap k).map (heapGet stA)
      = (objGet stB.nodeMap k).map (heapGet stB))
    (hmemo : ∀ k, (objGet stA.nodes k).map (heapGet stA)
      = (objGet stB.nodes k).map (heapGet stB)) :
    getNodeVal stA t ctx = getNodeVal stB t ctx := by
  rw [getNodeVal, getNodeVal, getNode_eq_nodeLookup, getNode_eq_nodeLookup]
  by_cases hm : objHas stB.nodes t = true ∧ ctx = none
  · have hmA : objHas stA.nodes t = true ∧ ctx = none := ⟨by rw [hnodes]; exact hm.1, hm.2⟩
    rw [if_pos hmA, if_pos hm]
    exact hmemo t
  · have hmA : ¬ (objHas stA.nodes t = true ∧ ctx = none) := fun hx =>
      hm ⟨by rw [← hnodes]; exact hx.1, hx.2⟩
    rw [if_neg hmA, if_neg hm]
    show (nodeLookup stA.nodeMap t (effEnvironment stA ctx) (effResidency stA ctx)
        (effInsightLocationId stA ctx) (effAccessible stA ctx)).map (heapGet stA)
      = (nodeLookup stB.nodeMap t (effEnvironment stB ctx) (effResidency stB ctx)
        (effInsightLocationId stB ctx) (effAccessible stB ctx)).map (heapGet stB)
    rw [effEnvironment_congr ctx hctx, effResidency_congr ctx hctx,
      effInsightLocationId_congr ctx hctx, effAccessible_congr ctx hctx]
    exact nodeLookup_congr stA.nodeMap stB.nodeMap (heapGet stA) (heapGet stB) hhas hval t _ _ _ _

instance wfIndicesDecidable (st : AlLocatorMatrix) : Decidable (wfIndices st) := by
  unfold wfIndices
  infer_instance

/-- First catalog of the C8 scenario. -/
def c8NodeA : AlLocationDescriptor :=
  { locTypeId := "a:x", uri := "https://a8.example.com" }

/-- Second catalog of the C8 scenario. -/
def c8NodeB : AlLocationDescriptor :=
  { locTypeId := "b:y", uri := "https://b8.example.com" }

/-- The engine after loading catalog [c8NodeA] and then catalog [c8NodeB]. -/
def c8State : AlLocatorMatrix := setLocations (setLocations emptyMatrix [c8NodeA]) [c8NodeB]

/-- C8 counterexample: loading a second catalog does not clear the indices.
After load([c8NodeA]); load([c8NodeB]) the node of the first catalog is still
reachable through getNode, although an engine holding only the second catalog
answers none for the same query. -/
theorem C8_counterexample_stale_catalog :
    getNodeVal c8State "a:x" none = some c8NodeA ∧
    getNodeVal (setLocations emptyMatrix [c8NodeB]) "a:x" none = none := by
  constructor
  · rfl
  · rfl

/-- C8 (corrected): setLocations merges into the existing indices instead of
clearing them - every key present in the node index before a load is still
present afterwards - and loading the same catalog twice gives, for every
getNode query, the same descriptor as loading it once (the heap ids shift,
the descriptor values do not), provided every id stored in the memo and the
node index points into the heap. -/
theorem C8_setLocations_merges_and_idempotent :
    (∀ (st : AlLocatorMatrix) (C : List AlLocationDescriptor) (k : String),
        objHas st.nodeMap k = true → objHas (setLocations st C).nodeMap k = true) ∧
    (∀ (st : AlLocatorMatrix) (C : List AlLocationDescriptor) (t : String)
        (ctx : Option AlLocationContext), wfIndices st →
        getNodeVal (setLocations (setLocations st C) C) t ctx
          = getNodeVal (setLocations st C) t ctx) := by
  constructor
  · intro st C k h
    rw [objHas_load_nodeMap, h, Bool.or_true]
  · intro st C t ctx hwf
    apply getNodeVal_congr
    · rw [setLocations_nodes]
    · rw [setLocations_context]
    · intro k
      rw [objHas_load_nodeMap (setLocations st C) C k, objHas_load_nodeMap st C k]
      cases hb : (catalogLastIndex C k).isSome <;> simp [hb]
    · intro k
      have hwf1 := wf_load_nodeMap st C hwf.2
      rw [load_nodeMap_val (setLocations st C) C hwf1 k, load_nodeMap_val st C hwf.2 k]
      rcases hli : catalogLastIndex C k with _ | j <;> simp [hli]
    · intro k
      rw [setLocations_nodes (setLocations st C) C]
      rcases hg : objGet (setLocations st C).nodes k with _ | id
      · simp [hg]
      · have hmem := objGet_mem hg
        rw [setLocations_nodes st C] at hmem
        have hid : id < (setLocations st C).heap.length := by
          have h1 := hwf.1 _ hmem
          rw [setLocations_heap, List.length_append]
          omega
        simp [hg, heapGet_load_old (setLocations st C) C hid]

/-- Witness for C8 at the concrete scenario: the key of the first catalog
survives the second load, and double-loading [c8NodeA] answers the "a:x"
query exactly as a single load does. -/
theorem C8_setLocations_merges_and_idempotent_witness :
    (objHas (setLocations emptyMatrix [c8NodeA]).nodeMap "a:x-*-*" = true ∧
      objHas (setLocations (setLocations emptyMatrix [c8NodeA]) [c8NodeB]).nodeMap
        "a:x-*-*" = true) ∧
    (wfIndices (setLocations emptyMatrix [c8NodeA]) ∧
      getNodeVal (setLocations (setLocations (setLocations emptyMatrix [c8NodeA])
          [c8NodeB]) [c8NodeB]) "a:x" none
        = getNodeVal (setLocations (setLocations emptyMatrix [c8NodeA]) [c8NodeB])
            "a:x" none) :=
  ⟨⟨by decide,
    C8_setLocations_merges_and_idempotent.1 (setLocations emptyMatrix [c8NodeA])
      [c8NodeB] ("a:x-*-*") (by decide)⟩,
   ⟨by decide,
    C8_setLocations_merges_and_idempotent.2 (setLocations emptyMatrix [c8NodeA])
      [c8NodeB] "a:x" none (by decide)⟩⟩

end AlLocator
